import Mathlib

/-!
# Menu tree maintenance (`internal/app/bll/impl/internal/b_menu.go`)

A shallow embedding of the menu business logic of gin-admin.  The business
layer (`internal.Menu`) talks to two injected collaborators, the record store
(`model.IMenu`) and the transaction provider (`model.ITrans`).  Every
operation is a function from the store state before the call to an outcome
together with the store state after the call.

A Go `string` is a sequence of bytes; here it is a list of characters, one
element for each byte, so `len`, slicing and concatenation are the list
operations.  The context argument (cancellation) is not modelled.
-/

/-- A Go string: the list of its elements. -/
abbrev Str := List Char

namespace errors

/-- Modelled from the spec: the error values of package `errors`, which is
declared outside the shown source.  `store` stands for any failure of the
record store or of the transaction provider (passed through unchanged), and
`panic` for a run-time panic of the Go code (slice bounds out of range). -/
inductive Error where
  | ErrNotFound
  | ErrMenuInvalidParent
  | ErrMenuNotAllowSelf
  | ErrMenuNotAllowDelete
  | store (code : Nat)
  | panic
  deriving DecidableEq, Repr

end errors

open errors (Error)

namespace schema

/-- Modelled from the spec: the node record `schema.Menu`, declared outside the
shown source.  The code reads and writes `RecordID`, `ParentID` and
`ParentPath`; all remaining domain attributes are one opaque `Payload`. -/
structure Menu where
  RecordID : Str
  ParentID : Str
  ParentPath : Str
  Payload : Str
  deriving DecidableEq, Repr

/-- Modelled from the spec: `schema.PaginationParam`; only the page size is used. -/
structure PaginationParam where
  PageSize : Int
  deriving DecidableEq, Repr

/-- Modelled from the spec: `schema.PaginationResult`; only the total is used. -/
structure PaginationResult where
  Total : Int
  deriving DecidableEq, Repr

/-- Modelled from the spec: the filter `schema.MenuQueryParam` with the two
fields the code sets, the exact parent (a `*string`) and the path prefix. -/
structure MenuQueryParam where
  ParentID : Option Str := none
  PrefixParentPath : Str := []
  deriving DecidableEq, Repr

/-- Modelled from the spec: the read options `schema.MenuQueryOptions`. -/
structure MenuQueryOptions where
  PageParam : Option PaginationParam := none
  IncludeActions : Bool := false
  IncludeResources : Bool := false
  deriving DecidableEq, Repr

/-- Modelled from the spec: `schema.MenuQueryResult`, the matched records and
the page information.  A query that succeeds returns both (the pointers the Go
code dereferences are not nil). -/
structure MenuQueryResult where
  Data : List Menu
  PageResult : PaginationResult
  deriving DecidableEq, Repr

end schema

deriving instance DecidableEq for Except

/-- The outcome of a call together with the store state it leaves behind. -/
abbrev Outcome (σ α : Type) := Except Error α × σ

namespace model

/-- Modelled from the spec: the record store interface `model.IMenu` over a
store state `σ`.  Every method, reads included, may fail and may change the
state, so an implementation that records or counts its calls is an instance. -/
structure IMenu (σ : Type) where
  Query : schema.MenuQueryParam → List schema.MenuQueryOptions → σ →
    Outcome σ schema.MenuQueryResult
  Get : Str → List schema.MenuQueryOptions → σ → Outcome σ (Option schema.Menu)
  Create : schema.Menu → σ → Outcome σ Unit
  Update : Str → schema.Menu → σ → Outcome σ Unit
  UpdateParentPath : Str → Str → σ → Outcome σ Unit
  Delete : Str → σ → Outcome σ Unit

/-- Modelled from the spec: the transaction provider `model.ITrans`, reduced to
its one contract `Execute(fn)`: run `fn` as a unit of work. -/
structure ITrans (σ : Type) where
  Exec : (σ → Outcome σ Unit) → σ → Outcome σ Unit

/-- Modelled from the spec: the provider that commits when `fn` succeeds and
rolls the store back to the state at the start when `fn` fails. -/
def rollbackTrans {σ : Type} : ITrans σ where
  Exec fn s :=
    match fn s with
    | (.ok _, s1) => (.ok (), s1)
    | (.error err, _) => (.error err, s)

/-- Modelled from the spec: whether a record passes the filter of a query,
exact match on the parent and prefix match on the path. -/
def matchesParam (p : schema.MenuQueryParam) (r : schema.Menu) : Bool :=
  (match p.ParentID with
    | some v => decide (r.ParentID = v)
    | none => true) &&
  p.PrefixParentPath.isPrefixOf r.ParentPath

/-- Modelled from the spec: the record store as a flat list of rows, in the
manner of a table addressed with `WHERE record_id = ?`: `Get` answers with the
first row of that key, `Update`, `UpdateParentPath` and `Delete` act on every
row of that key, `Create` appends, and `Query` returns all matches in store
order with their count.  None of the methods fails. -/
def memMenu : IMenu (List schema.Menu) where
  Query p _ rows :=
    let data := rows.filter (matchesParam p)
    (.ok { Data := data, PageResult := { Total := (data.length : Int) } }, rows)
  Get recordID _ rows := (.ok (rows.find? (fun r => decide (r.RecordID = recordID))), rows)
  Create item rows := (.ok (), rows ++ [item])
  Update recordID item rows :=
    (.ok (), rows.map (fun r =>
      if r.RecordID = recordID then { item with RecordID := recordID } else r))
  UpdateParentPath recordID parentPath rows :=
    (.ok (), rows.map (fun r =>
      if r.RecordID = recordID then { r with ParentPath := parentPath } else r))
  Delete recordID rows := (.ok (), rows.filter (fun r => decide (r.RecordID ≠ recordID)))

end model

namespace internal

/-- Modelled from the spec: `ExecTrans`, defined outside the shown source,
hands the unit of work to the transaction provider. -/
def ExecTrans {σ : Type} (transModel : model.ITrans σ) (fn : σ → Outcome σ Unit) (s : σ) :
    Outcome σ Unit :=
  transModel.Exec fn s

/-- The menu manager `Menu` with its two collaborators. -/
structure Menu (σ : Type) where
  TransModel : model.ITrans σ
  MenuModel : model.IMenu σ

/-- Constructor `NewMenu` (lines 13-19). -/
def NewMenu {σ : Type} (trans : model.ITrans σ) (menu : model.IMenu σ) : Menu σ :=
  { TransModel := trans, MenuModel := menu }

namespace Menu

variable {σ : Type}

/-- Method `Menu.Query` (lines 28-30): a pass-through to the store. -/
def Query (a : Menu σ) (params : schema.MenuQueryParam) (opts : List schema.MenuQueryOptions)
    (s : σ) : Outcome σ schema.MenuQueryResult :=
  a.MenuModel.Query params opts s

/-- Method `Menu.Get` (lines 33-41). -/
def Get (a : Menu σ) (recordID : Str) (opts : List schema.MenuQueryOptions) (s : σ) :
    Outcome σ schema.Menu :=
  match a.MenuModel.Get recordID opts s with
  | (.error err, s1) => (.error err, s1)
  | (.ok none, s1) => (.error .ErrNotFound, s1)
  | (.ok (some item), s1) => (.ok item, s1)

/-- Method `Menu.getSep` (lines 43-45): the path separator. -/
def getSep : Str := ['/']

/-- Method `Menu.getParentPath` (lines 48-66). -/
def getParentPath (a : Menu σ) (parentID : Str) (s : σ) : Outcome σ Str :=
  if parentID = [] then (.ok [], s)
  else
    match a.MenuModel.Get parentID [] s with
    | (.error err, s1) => (.error err, s1)
    | (.ok none, s1) => (.error .ErrMenuInvalidParent, s1)
    | (.ok (some pitem), s1) =>
      let parentPath : Str := if pitem.ParentPath ≠ [] then pitem.ParentPath ++ getSep else []
      (.ok (parentPath ++ pitem.RecordID), s1)

/-- Method `Menu.getUpdate` (lines 68-73). -/
def getUpdate (a : Menu σ) (recordID : Str) (s : σ) : Outcome σ schema.Menu :=
  a.Get recordID [{ IncludeActions := true, IncludeResources := true }] s

/-- Method `Menu.Create` (lines 76-90); `uuid` is the identifier that
`util.MustUUID()` returns at this call. -/
def Create (a : Menu σ) (uuid : Str) (item : schema.Menu) (s : σ) : Outcome σ schema.Menu :=
  match a.getParentPath item.ParentID s with
  | (.error err, s1) => (.error err, s1)
  | (.ok parentPath, s1) =>
    let item : schema.Menu := { item with ParentPath := parentPath, RecordID := uuid }
    match a.MenuModel.Create item s1 with
    | (.error err, s2) => (.error err, s2)
    | (.ok _, s2) => a.getUpdate item.RecordID s2

/-- The loop of `Menu.Update` over `result.Data` (lines 134-140): every matched
record gets the path `npath + menu.ParentPath[len(opath):]`; the slice panics
when the path of the record is shorter than `opath`. -/
def Update.rewrite (a : Menu σ) (opath npath : Str) : List schema.Menu → σ → Outcome σ Unit
  | [], s => (.ok (), s)
  | menu :: rest, s =>
    if opath.length ≤ menu.ParentPath.length then
      let npath2 := npath ++ menu.ParentPath.drop opath.length
      match a.MenuModel.UpdateParentPath menu.RecordID npath2 s with
      | (.error err, s1) => (.error err, s1)
      | (.ok _, s1) => Update.rewrite a opath npath rest s1
    else (.error .panic, s)

/-- The unit of work `Menu.Update` hands to `ExecTrans` (lines 106-144); `item`
already carries the `ParentPath` of `oldItem` (line 104). -/
def Update.work (a : Menu σ) (recordID : Str) (item oldItem : schema.Menu) (s : σ) :
    Outcome σ Unit :=
  if item.ParentID ≠ oldItem.ParentID then
    match a.getParentPath item.ParentID s with
    | (.error err, s1) => (.error err, s1)
    | (.ok parentPath, s1) =>
      let item : schema.Menu := { item with ParentPath := parentPath }
      let opath : Str :=
        (if oldItem.ParentPath ≠ [] then oldItem.ParentPath ++ getSep else oldItem.ParentPath)
          ++ oldItem.RecordID
      match a.MenuModel.Query { PrefixParentPath := opath } [] s1 with
      | (.error err, s2) => (.error err, s2)
      | (.ok result, s2) =>
        let npath : Str :=
          (if item.ParentPath ≠ [] then item.ParentPath ++ getSep else item.ParentPath)
            ++ item.RecordID
        match Update.rewrite a opath npath result.Data s2 with
        | (.error err, s3) => (.error err, s3)
        | (.ok _, s3) => a.MenuModel.Update recordID item s3
  else a.MenuModel.Update recordID item s

/-- Method `Menu.Update` (lines 93-149). -/
def Update (a : Menu σ) (recordID : Str) (item : schema.Menu) (s : σ) : Outcome σ schema.Menu :=
  if recordID = item.ParentID then (.error .ErrMenuNotAllowSelf, s)
  else
    match a.MenuModel.Get recordID [] s with
    | (.error err, s1) => (.error err, s1)
    | (.ok none, s1) => (.error .ErrNotFound, s1)
    | (.ok (some oldItem), s1) =>
      let item : schema.Menu := { item with ParentPath := oldItem.ParentPath }
      match ExecTrans a.TransModel (Update.work a recordID item oldItem) s1 with
      | (.error err, s2) => (.error err, s2)
      | (.ok _, s2) => a.getUpdate recordID s2

/-- Method `Menu.Delete` (lines 152-163). -/
def Delete (a : Menu σ) (recordID : Str) (s : σ) : Outcome σ Unit :=
  match a.MenuModel.Query { ParentID := some recordID }
      [{ PageParam := some { PageSize := -1 } }] s with
  | (.error err, s1) => (.error err, s1)
  | (.ok result, s1) =>
    if result.PageResult.Total > 0 then (.error .ErrMenuNotAllowDelete, s1)
    else a.MenuModel.Delete recordID s1

end Menu

/-- The menu manager over the in-memory store with the rollback provider. -/
def memBll : Menu (List schema.Menu) := NewMenu model.rollbackTrans model.memMenu

end internal

open internal errors

/-! ## Sample stores (the scenarios of the specification) -/

/-- Root `R`. -/
def nodeR : schema.Menu := ⟨"R".toList, [], [], "root".toList⟩

/-- Second root `R2`. -/
def nodeR2 : schema.Menu := ⟨"R2".toList, [], [], "root two".toList⟩

/-- Child `C1` of `R`. -/
def nodeC1 : schema.Menu := ⟨"C1".toList, "R".toList, "R".toList, "child".toList⟩

/-- Grandchild `G`, child of `C1`. -/
def nodeG : schema.Menu := ⟨"G".toList, "C1".toList, "R/C1".toList, "grandchild".toList⟩

/-- The store of scenario B before the move. -/
def scenarioB : List schema.Menu := [nodeR, nodeR2, nodeC1, nodeG]

/-! ## Derived notions used in the statements -/

/-- The full path of a node: its `ParentPath`, the separator and its
`RecordID`, the separator omitted when `ParentPath` is empty. -/
def fullPath (parentPath recordID : Str) : Str :=
  if parentPath = [] then recordID else parentPath ++ '/' :: recordID

/-- A store for the failure scenario of P6 (the rewrite of the k-th descendant
fails): the in-memory store together with a budget of path rewrites.  Each
`UpdateParentPath` consumes one unit and fails once the budget is used up; all
other methods behave as in `model.memMenu` and leave the budget alone. -/
def flakyMenu : model.IMenu (List schema.Menu × Nat) where
  Query p opts s := ((model.memMenu.Query p opts s.1).1, s)
  Get recordID opts s := ((model.memMenu.Get recordID opts s.1).1, s)
  Create item s := (.ok (), ((model.memMenu.Create item s.1).2, s.2))
  Update recordID item s := (.ok (), ((model.memMenu.Update recordID item s.1).2, s.2))
  UpdateParentPath recordID parentPath s :=
    match s.2 with
    | 0 => (.error (.store 1), s)
    | n + 1 => (.ok (), ((model.memMenu.UpdateParentPath recordID parentPath s.1).2, n))
  Delete recordID s := (.ok (), ((model.memMenu.Delete recordID s.1).2, s.2))

/-- Child `H` of `G`. -/
def nodeH : schema.Menu := ⟨"H".toList, "G".toList, "R/C1/G".toList, "great-grandchild".toList⟩

/-- Another root `S`, whose id shares no prefix with the other ids. -/
def nodeS : schema.Menu := ⟨"S".toList, [], [], "root s".toList⟩

/-- A store with well-formed ids: roots `R` and `S`, `C1` under `R`, `G` under `C1`. -/
def scenarioS : List schema.Menu := [nodeR, nodeS, nodeC1, nodeG]

/-- A node whose parent `X` is not in the store. -/
def nodeOrphan : schema.Menu := ⟨"A".toList, "X".toList, "X".toList, "orphan".toList⟩

/-- The path a node with the given `ParentID` must carry according to I1:
empty when `ParentID` is empty, otherwise the full path of the parent the
store returns; `none` when the parent is not in the store. -/
def derivedPath (rows : List schema.Menu) (parentID : Str) : Option Str :=
  if parentID = [] then some []
  else (rows.find? (fun r => decide (r.RecordID = parentID))).map
    (fun p => fullPath p.ParentPath p.RecordID)

/-- Invariant I1: the `ParentPath` of every node is the path derived from its parent. -/
def I1 (rows : List schema.Menu) : Prop :=
  ∀ r ∈ rows, derivedPath rows r.ParentID = some r.ParentPath

instance : DecidablePred I1 := fun rows => by unfold I1; infer_instance

/-- The pieces of a string between the separators `/`. -/
def splitSep : Str → List Str
  | [] => [[]]
  | c :: cs =>
    if c = '/' then [] :: splitSep cs
    else
      match splitSep cs with
      | [] => [[c]]
      | seg :: segs => (c :: seg) :: segs

/-- The segments of a materialized path; the empty path has none. -/
def segments (path : Str) : List Str :=
  if path = [] then [] else splitSep path

/-- Invariant I2: no node's own `RecordID` is a segment of its own `ParentPath`. -/
def I2 (rows : List schema.Menu) : Prop :=
  ∀ r ∈ rows, r.RecordID ∉ segments r.ParentPath

instance : DecidablePred I2 := fun rows => by unfold I2; infer_instance

/-- The store is keyed by the record identifier: no two rows share a `RecordID`. -/
def UniqueIDs (rows : List schema.Menu) : Prop :=
  (rows.map (fun r => r.RecordID)).Nodup

instance : DecidablePred UniqueIDs := fun rows => by unfold UniqueIDs; infer_instance

/-- Every `RecordID` is non-empty and free of the separator. -/
def CleanIDs (rows : List schema.Menu) : Prop :=
  ∀ r ∈ rows, r.RecordID ≠ [] ∧ '/' ∉ r.RecordID

instance : DecidablePred CleanIDs := fun rows => by unfold CleanIDs; infer_instance

/-- No `RecordID` is a proper string prefix of another one. -/
def NoPrefixIDs (rows : List schema.Menu) : Prop :=
  ∀ r ∈ rows, ∀ r' ∈ rows, r.RecordID <+: r'.RecordID → r.RecordID = r'.RecordID

instance : DecidablePred NoPrefixIDs := fun rows => by unfold NoPrefixIDs; infer_instance

/-- Well-formed identifiers: unique, non-empty, separator-free, prefix-free. -/
def WellFormed (rows : List schema.Menu) : Prop :=
  UniqueIDs rows ∧ CleanIDs rows ∧ NoPrefixIDs rows

instance : DecidablePred WellFormed := fun rows => by unfold WellFormed; infer_instance

/-- The record `Update` writes for a path rewrite of `r`: the old prefix of
length `n` replaced by `npath`. -/
def rewritten (n : Nat) (npath : Str) (r : schema.Menu) : schema.Menu :=
  { r with ParentPath := npath ++ r.ParentPath.drop n }

/-- The row `Update` leaves in place of `r` when it moves the node `recordID`:
the node itself becomes the stored item, a row whose path starts with `opath`
has that prefix replaced by `npath`, every other row stays. -/
def reparentRow (recordID : Str) (item : schema.Menu) (opath npath : Str) (r : schema.Menu) :
    schema.Menu :=
  if r.RecordID = recordID then { item with RecordID := recordID }
  else if opath <+: r.ParentPath then rewritten opath.length npath r else r

/-- A store whose lookup fails with the error value `ErrNotFound` of package
`errors`; the other methods behave as in `model.memMenu`. -/
def notFoundMenu : model.IMenu (List schema.Menu) :=
  { model.memMenu with Get := fun _ _ rows => (.error .ErrNotFound, rows) }

/-- The suffix of `path` behind the prefix `opath`: the elements of `opath` are
taken off the front one by one. -/
def stripPrefix : Str → Str → Str
  | [], path => path
  | _ :: _, [] => []
  | _ :: opath, _ :: path => stripPrefix opath path

/-- The descendant rewrite in the words of the specification (step 3e): for
each matched record in turn, the old full path at the front of its path is
replaced by the new full path, the suffix is kept, and the new path of that
record alone is persisted; a failure of the store ends the loop. -/
def rewriteBySpec {σ : Type} (a : Menu σ) (opath npath : Str) :
    List schema.Menu → σ → Outcome σ Unit
  | [], s => (.ok (), s)
  | d :: rest, s =>
    match a.MenuModel.UpdateParentPath d.RecordID (npath ++ stripPrefix opath d.ParentPath) s with
    | (.error err, s1) => (.error err, s1)
    | (.ok _, s1) => rewriteBySpec a opath npath rest s1

/-- One step of the descendant rewrite on the rows of the in-memory store. -/
def rewriteRow (opath npath : Str) (rows : List schema.Menu) (d : schema.Menu) :
    List schema.Menu :=
  rows.map (fun r =>
    if r.RecordID = d.RecordID
    then { r with ParentPath := npath ++ d.ParentPath.drop opath.length } else r)

/-- The descendants of the node `recordID` in a store: its children, and the
children of its descendants (the parent link followed any number of times). -/
inductive Descendant (rows : List schema.Menu) (recordID : Str) : schema.Menu → Prop where
  | child (r : schema.Menu) : r ∈ rows → r.ParentID = recordID → Descendant rows recordID r
  | step (r p : schema.Menu) : r ∈ rows → p ∈ rows → r.ParentID = p.RecordID →
      Descendant rows recordID p → Descendant rows recordID r

/-- Invariant I3: the full path of every descendant of a node starts with the
full path of that node. -/
def I3 (rows : List schema.Menu) : Prop :=
  ∀ n ∈ rows, ∀ d, Descendant rows n.RecordID d →
    fullPath n.ParentPath n.RecordID <+: fullPath d.ParentPath d.RecordID

/-- A store in which the id `C1` is a string prefix of the id `C10`: roots `C1`,
`C10` and `S`, and `X` under `C10`. -/
def scenarioPrefix : List schema.Menu :=
  [⟨"C1".toList, [], [], "one".toList⟩, ⟨"C10".toList, [], [], "ten".toList⟩,
   ⟨"X".toList, "C10".toList, "C10".toList, "x".toList⟩, nodeS]

/-! # Theorems -/

/-! ## Basic facts about the in-memory store -/

theorem memBll_Get_eq (recordID : Str) (opts : List schema.MenuQueryOptions)
    (rows : List schema.Menu) :
    memBll.MenuModel.Get recordID opts rows
      = (.ok (rows.find? (fun r => decide (r.RecordID = recordID))), rows) := rfl

theorem memBll_Create_eq (item : schema.Menu) (rows : List schema.Menu) :
    memBll.MenuModel.Create item rows = (.ok (), rows ++ [item]) := rfl

theorem memBll_Update_eq (recordID : Str) (item : schema.Menu) (rows : List schema.Menu) :
    memBll.MenuModel.Update recordID item rows
      = (.ok (), rows.map (fun r =>
          if r.RecordID = recordID then { item with RecordID := recordID } else r)) := rfl

theorem memBll_UpdateParentPath_eq (recordID parentPath : Str) (rows : List schema.Menu) :
    memBll.MenuModel.UpdateParentPath recordID parentPath rows
      = (.ok (), rows.map (fun r =>
          if r.RecordID = recordID then { r with ParentPath := parentPath } else r)) := rfl

theorem memBll_Delete_eq (recordID : Str) (rows : List schema.Menu) :
    memBll.MenuModel.Delete recordID rows
      = (.ok (), rows.filter (fun r => decide (r.RecordID ≠ recordID))) := rfl

theorem memBll_Query_eq (p : schema.MenuQueryParam) (opts : List schema.MenuQueryOptions)
    (rows : List schema.Menu) :
    memBll.MenuModel.Query p opts rows
      = (.ok { Data := rows.filter (model.matchesParam p),
               PageResult := { Total := ((rows.filter (model.matchesParam p)).length : Int) } },
         rows) := rfl

theorem memBll_TransModel : memBll.TransModel = model.rollbackTrans := rfl

theorem ExecTrans_rollback_error {σ : Type} (fn : σ → Outcome σ Unit) (s s1 : σ) (err : Error)
    (h : fn s = (.error err, s1)) :
    ExecTrans model.rollbackTrans fn s = (.error err, s) := by
  simp only [ExecTrans, model.rollbackTrans, h]

theorem ExecTrans_rollback_ok {σ : Type} (fn : σ → Outcome σ Unit) (s s1 : σ)
    (h : fn s = (.ok (), s1)) :
    ExecTrans model.rollbackTrans fn s = (.ok (), s1) := by
  simp only [ExecTrans, model.rollbackTrans, h]

theorem find_none_of_missing (rows : List schema.Menu) (recordID : Str)
    (h : ∀ r ∈ rows, r.RecordID ≠ recordID) :
    rows.find? (fun r => decide (r.RecordID = recordID)) = none := by
  rw [List.find?_eq_none]
  intro r hr
  simpa using h r hr

theorem find_some_of_present (rows : List schema.Menu) (recordID : Str)
    (h : ∃ r ∈ rows, r.RecordID = recordID) :
    ∃ p, rows.find? (fun r => decide (r.RecordID = recordID)) = some p
      ∧ p ∈ rows ∧ p.RecordID = recordID := by
  obtain ⟨r, hr, hid⟩ := h
  cases hf : rows.find? (fun r => decide (r.RecordID = recordID)) with
  | none =>
    rw [List.find?_eq_none] at hf
    exact absurd (by simpa using hid) (hf r hr)
  | some p =>
    exact ⟨p, rfl, List.mem_of_find?_eq_some hf, by simpa using List.find?_some hf⟩

/-! ## C1: getParentPath -/

/-- C1: `getParentPath` returns the empty path without touching the store when
`parentID` is empty; for a non-empty `parentID` it fails with
`ErrMenuInvalidParent` when the store answers that there is no such node, and
when the store answers with a node `p` it returns `p.ParentPath ++ "/" ++
p.RecordID`, or `p.RecordID` alone when `p.ParentPath` is empty. -/
theorem getParentPath_contract {σ : Type} (a : Menu σ) (parentID : Str) (s : σ) :
    (parentID = [] → a.getParentPath parentID s = (.ok [], s)) ∧
    (∀ s1, parentID ≠ [] → a.MenuModel.Get parentID [] s = (.ok none, s1) →
      a.getParentPath parentID s = (.error .ErrMenuInvalidParent, s1)) ∧
    (∀ p s1, parentID ≠ [] → a.MenuModel.Get parentID [] s = (.ok (some p), s1) →
      a.getParentPath parentID s
        = (.ok (if p.ParentPath = [] then p.RecordID
                else p.ParentPath ++ ['/'] ++ p.RecordID), s1)) := by
  refine ⟨?_, ?_, ?_⟩
  · intro h
    simp [Menu.getParentPath, h]
  · intro s1 hne hget
    simp [Menu.getParentPath, hne, hget]
  · intro p s1 hne hget
    by_cases hp : p.ParentPath = [] <;>
      simp [Menu.getParentPath, Menu.getSep, hne, hget, hp]

/-- Witness of C1 on the store of scenario B: empty parent, missing parent `X`,
root parent `R` and nested parent `C1`. -/
theorem getParentPath_contract_witness :
    memBll.getParentPath [] scenarioB = (.ok [], scenarioB) ∧
    memBll.getParentPath "X".toList scenarioB = (.error .ErrMenuInvalidParent, scenarioB) ∧
    memBll.getParentPath "R".toList scenarioB = (.ok "R".toList, scenarioB) ∧
    memBll.getParentPath "C1".toList scenarioB = (.ok "R/C1".toList, scenarioB) :=
  ⟨(getParentPath_contract memBll [] scenarioB).1 rfl,
   (getParentPath_contract memBll "X".toList scenarioB).2.1 scenarioB (by decide) (by decide),
   (getParentPath_contract memBll "R".toList scenarioB).2.2 nodeR scenarioB (by decide)
     (by decide),
   (getParentPath_contract memBll "C1".toList scenarioB).2.2 nodeC1 scenarioB (by decide)
     (by decide)⟩

/-! ## The in-memory store: lookups and path derivation -/

theorem memBll_getParentPath (parentID : Str) (rows : List schema.Menu) :
    memBll.getParentPath parentID rows =
      if parentID = [] then (.ok [], rows)
      else
        match rows.find? (fun r => decide (r.RecordID = parentID)) with
        | none => (.error .ErrMenuInvalidParent, rows)
        | some p => (.ok (fullPath p.ParentPath p.RecordID), rows) := by
  by_cases h : parentID = []
  · simp [Menu.getParentPath, h]
  · simp only [Menu.getParentPath, h, if_false, memBll_Get_eq]
    cases hf : rows.find? (fun r => decide (r.RecordID = parentID)) with
    | none => rfl
    | some p =>
      by_cases hp : p.ParentPath = [] <;> simp [fullPath, Menu.getSep, hp]

theorem memBll_getUpdate (recordID : Str) (rows : List schema.Menu) :
    memBll.getUpdate recordID rows =
      match rows.find? (fun r => decide (r.RecordID = recordID)) with
      | none => (.error .ErrNotFound, rows)
      | some item => (.ok item, rows) := by
  simp only [Menu.getUpdate, Menu.Get, memBll_Get_eq]
  cases rows.find? (fun r => decide (r.RecordID = recordID)) <;> rfl

/-! ## C3: Create -/

/-- C3: on every store, when the `ParentID` of the input is empty or names an
existing node, `Create` succeeds and appends exactly one record, whose
`ParentPath` is the path `getParentPath` computes on the store before the call
and whose `RecordID` is the generated one; the `ParentPath` the caller supplied
has no influence on the store reached. -/
theorem Create_derives_path (rows : List schema.Menu) (uuid : Str) (item : schema.Menu)
    (h : item.ParentID = [] ∨ ∃ r ∈ rows, r.RecordID = item.ParentID) :
    ∃ parentPath stored,
      memBll.getParentPath item.ParentID rows = (.ok parentPath, rows) ∧
      memBll.Create uuid item rows
        = (.ok stored, rows ++ [{ item with ParentPath := parentPath, RecordID := uuid }]) ∧
      ∀ supplied : Str,
        (memBll.Create uuid { item with ParentPath := supplied } rows).2
          = rows ++ [{ item with ParentPath := parentPath, RecordID := uuid }] := by
  have key : ∃ parentPath, memBll.getParentPath item.ParentID rows = (.ok parentPath, rows) := by
    rw [memBll_getParentPath]
    rcases h with h | h
    · exact ⟨[], by simp [h]⟩
    · obtain ⟨p, hp, -, -⟩ := find_some_of_present rows item.ParentID h
      by_cases h0 : item.ParentID = []
      · exact ⟨[], by simp [h0]⟩
      · exact ⟨fullPath p.ParentPath p.RecordID, by simp [h0, hp]⟩
  obtain ⟨parentPath, hpp⟩ := key
  have hstore : ∀ it : schema.Menu,
      memBll.getParentPath it.ParentID rows = (.ok parentPath, rows) →
      ∃ stored, memBll.Create uuid it rows
        = (.ok stored, rows ++ [{ it with ParentPath := parentPath, RecordID := uuid }]) := by
    intro it hit
    obtain ⟨q, hq, -, -⟩ := find_some_of_present
      (rows ++ [{ it with ParentPath := parentPath, RecordID := uuid }]) uuid
      ⟨_, List.mem_append_right _ (List.mem_singleton_self _), rfl⟩
    refine ⟨q, ?_⟩
    simp only [Menu.Create, hit, memBll_Create_eq, memBll_getUpdate, hq]
  obtain ⟨stored, hst⟩ := hstore item hpp
  refine ⟨parentPath, stored, hpp, hst, ?_⟩
  intro supplied
  obtain ⟨st2, h2⟩ := hstore { item with ParentPath := supplied } hpp
  rw [h2]

/-- Witness of C3 (scenario A): creating root `R`, then `C1` under `R`, then `G`
under `C1`, each time with a misleading `ParentPath` supplied by the caller,
yields the paths `""`, `R` and `R/C1`. -/
theorem Create_derives_path_witness :
    (∃ parentPath stored,
      memBll.getParentPath "C1".toList [nodeR, nodeC1] = (.ok parentPath, [nodeR, nodeC1]) ∧
      memBll.Create "G".toList ⟨[], "C1".toList, "zz".toList, "grandchild".toList⟩
          [nodeR, nodeC1]
        = (.ok stored, [nodeR, nodeC1] ++
            [{ (⟨[], "C1".toList, "zz".toList, "grandchild".toList⟩ : schema.Menu) with
                ParentPath := parentPath, RecordID := "G".toList }]) ∧
      ∀ supplied : Str,
        (memBll.Create "G".toList
            { (⟨[], "C1".toList, "zz".toList, "grandchild".toList⟩ : schema.Menu) with
                ParentPath := supplied } [nodeR, nodeC1]).2
          = [nodeR, nodeC1] ++
            [{ (⟨[], "C1".toList, "zz".toList, "grandchild".toList⟩ : schema.Menu) with
                ParentPath := parentPath, RecordID := "G".toList }]) ∧
    memBll.Create "R".toList ⟨[], [], "zz".toList, "root".toList⟩ [] = (.ok nodeR, [nodeR]) ∧
    memBll.Create "C1".toList ⟨[], "R".toList, "zz".toList, "child".toList⟩ [nodeR]
      = (.ok nodeC1, [nodeR, nodeC1]) ∧
    memBll.Create "G".toList ⟨[], "C1".toList, "zz".toList, "grandchild".toList⟩ [nodeR, nodeC1]
      = (.ok nodeG, [nodeR, nodeC1, nodeG]) :=
  ⟨Create_derives_path [nodeR, nodeC1] "G".toList
      ⟨[], "C1".toList, "zz".toList, "grandchild".toList⟩
      (Or.inr ⟨nodeC1, by decide, by decide⟩),
   by decide, by decide, by decide⟩

/-! ## C4: Delete -/

theorem matchesParam_parent (recordID : Str) (r : schema.Menu) :
    model.matchesParam { ParentID := some recordID } r = decide (r.ParentID = recordID) := by
  simp [model.matchesParam, List.isPrefixOf]

theorem memBll_Delete_of_child (rows : List schema.Menu) (recordID : Str)
    (h : ∃ r ∈ rows, r.ParentID = recordID) :
    memBll.Delete recordID rows = (.error .ErrMenuNotAllowDelete, rows) := by
  obtain ⟨r, hr, hpar⟩ := h
  have hpos : 0 < (rows.filter (model.matchesParam { ParentID := some recordID })).length := by
    apply List.length_pos_of_mem (a := r)
    rw [List.mem_filter]
    exact ⟨hr, by simp [matchesParam_parent, hpar]⟩
  simp only [Menu.Delete, memBll_Query_eq]
  rw [if_pos (by exact_mod_cast hpos)]

theorem memBll_Delete_of_no_child (rows : List schema.Menu) (recordID : Str)
    (h : ∀ r ∈ rows, r.ParentID ≠ recordID) :
    memBll.Delete recordID rows = memBll.MenuModel.Delete recordID rows := by
  have hnil : rows.filter (model.matchesParam { ParentID := some recordID }) = [] := by
    rw [List.filter_eq_nil_iff]
    intro r hr
    simpa [matchesParam_parent] using h r hr
  simp only [Menu.Delete, memBll_Query_eq, hnil]
  simp

/-- C4: on every store, `Delete` fails with `ErrMenuNotAllowDelete` and leaves
the store as it was when some record has `ParentID` equal to the id; when no
record has, `Delete` is exactly the store deletion for that id: it succeeds, no
record of that id remains, and the other records stay as they were, in order. -/
theorem Delete_guard (rows : List schema.Menu) (recordID : Str) :
    ((∃ r ∈ rows, r.ParentID = recordID) →
      memBll.Delete recordID rows = (.error .ErrMenuNotAllowDelete, rows)) ∧
    ((∀ r ∈ rows, r.ParentID ≠ recordID) →
      memBll.Delete recordID rows = memBll.MenuModel.Delete recordID rows ∧
      ∃ rows', memBll.Delete recordID rows = (.ok (), rows') ∧
        (∀ r ∈ rows', r.RecordID ≠ recordID) ∧
        rows' = rows.filter (fun r => decide (r.RecordID ≠ recordID))) := by
  constructor
  · exact memBll_Delete_of_child rows recordID
  · intro hnone
    have hdel := memBll_Delete_of_no_child rows recordID hnone
    refine ⟨hdel, _, hdel.trans (memBll_Delete_eq recordID rows), ?_, rfl⟩
    intro r hr
    simpa using (List.mem_filter.mp hr).2

/-- Witness of C4 (scenario C): deleting `R` while `C1` is its child is refused
and nothing changes; deleting the childless `G` removes exactly `G`. -/
theorem Delete_guard_witness :
    memBll.Delete "R".toList scenarioB = (.error .ErrMenuNotAllowDelete, scenarioB) ∧
    (memBll.Delete "G".toList scenarioB = memBll.MenuModel.Delete "G".toList scenarioB ∧
      ∃ rows', memBll.Delete "G".toList scenarioB = (.ok (), rows') ∧
        (∀ r ∈ rows', r.RecordID ≠ "G".toList) ∧
        rows' = scenarioB.filter (fun r => decide (r.RecordID ≠ "G".toList))) ∧
    memBll.Delete "G".toList scenarioB = (.ok (), [nodeR, nodeR2, nodeC1]) :=
  ⟨(Delete_guard scenarioB "R".toList).1 ⟨nodeC1, by decide, by decide⟩,
   (Delete_guard scenarioB "G".toList).2 (by decide),
   by decide⟩

/-! ## C5: no self-parent -/

/-- C5: for every record store and transaction provider, whatever they would
do, and every id, existing or not, empty or not, `Update` with
`item.ParentID = recordID` fails with `ErrMenuNotAllowSelf` and leaves the
state exactly as it was.  As reads of the store are allowed to change the
state, the unchanged state shows that the store was neither read nor written. -/
theorem Update_self_parent {σ : Type} (a : Menu σ) (recordID : Str) (item : schema.Menu) (s : σ)
    (h : item.ParentID = recordID) :
    a.Update recordID item s = (.error .ErrMenuNotAllowSelf, s) := by
  simp [Menu.Update, h]

/-- Witness of C5 (scenario D): `C1` cannot become its own parent, on the
in-memory store and on the store with an exhausted rewrite budget alike. -/
theorem Update_self_parent_witness :
    memBll.Update "C1".toList { nodeC1 with ParentID := "C1".toList } scenarioB
      = (.error .ErrMenuNotAllowSelf, scenarioB) ∧
    (NewMenu model.rollbackTrans flakyMenu).Update [] { nodeC1 with ParentID := [] }
        (scenarioB, 0)
      = (.error .ErrMenuNotAllowSelf, (scenarioB, 0)) :=
  ⟨Update_self_parent memBll "C1".toList { nodeC1 with ParentID := "C1".toList } scenarioB rfl,
   Update_self_parent (NewMenu model.rollbackTrans flakyMenu) []
     { nodeC1 with ParentID := [] } (scenarioB, 0) rfl⟩

/-! ## C10: Update of a missing node -/

/-- C10: when `item.ParentID` differs from the id and the store answers that no
node has the id, `Update` fails with `ErrNotFound` and the state is the one the
lookup left, for every store and every transaction provider; on the in-memory
store with no record of that id the store is unchanged, whatever the
transaction provider would do, so the transaction is never entered. -/
theorem Update_missing_node (recordID : Str) (item : schema.Menu)
    (hne : item.ParentID ≠ recordID) :
    (∀ (σ : Type) (a : Menu σ) (s s1 : σ),
      a.MenuModel.Get recordID [] s = (.ok none, s1) →
      a.Update recordID item s = (.error .ErrNotFound, s1)) ∧
    (∀ (trans : model.ITrans (List schema.Menu)) (rows : List schema.Menu),
      (∀ r ∈ rows, r.RecordID ≠ recordID) →
      (NewMenu trans model.memMenu).Update recordID item rows = (.error .ErrNotFound, rows)) := by
  have hne' : ¬ recordID = item.ParentID := fun h => hne h.symm
  have gen : ∀ (σ : Type) (a : Menu σ) (s s1 : σ),
      a.MenuModel.Get recordID [] s = (.ok none, s1) →
      a.Update recordID item s = (.error .ErrNotFound, s1) := by
    intro σ a s s1 hget
    simp only [Menu.Update, hne', if_false, hget]
  refine ⟨gen, ?_⟩
  intro trans rows hmiss
  apply gen
  have hg : (NewMenu trans model.memMenu).MenuModel.Get recordID [] rows
      = (.ok (rows.find? (fun r => decide (r.RecordID = recordID))), rows) := rfl
  rw [hg, find_none_of_missing rows recordID hmiss]

/-- Witness of C10: updating the unknown id `Z` on the store of scenario B, with
a transaction provider that would otherwise empty the store. -/
theorem Update_missing_node_witness :
    (NewMenu ⟨fun _ _ => (.ok (), [])⟩ model.memMenu).Update "Z".toList
        { nodeC1 with ParentID := "R2".toList } scenarioB
      = (.error .ErrNotFound, scenarioB) :=
  (Update_missing_node "Z".toList { nodeC1 with ParentID := "R2".toList } (by decide)).2
    ⟨fun _ _ => (.ok (), [])⟩ scenarioB (by decide)

/-! ## C6: invalid parent -/

/-- C6, as stated, fails: in the store holding only `A`, whose recorded parent
`X` does not exist, `Update` of `A` with the same `ParentID = X` succeeds, as
the parent is looked up only when the `ParentID` changes. -/
theorem Update_invalid_parent_counterexample :
    ("X".toList ≠ [] ∧ (∀ r ∈ [nodeOrphan], r.RecordID ≠ "X".toList) ∧
      (∃ r ∈ [nodeOrphan], r.RecordID = "A".toList) ∧ "A".toList ≠ "X".toList ∧
      ({ nodeOrphan with Payload := "renamed".toList } : schema.Menu).ParentID = "X".toList) ∧
    memBll.Update "A".toList { nodeOrphan with Payload := "renamed".toList } [nodeOrphan]
      = (.ok { nodeOrphan with Payload := "renamed".toList },
          [{ nodeOrphan with Payload := "renamed".toList }]) := by
  decide

/-- C6, amended: for a non-empty `parentID` that no record of the store has as
its id, `Create` of a node with that `ParentID` fails with
`ErrMenuInvalidParent`, and so does `Update` of an existing node, of another
id, whose stored `ParentID` differs from `parentID`; in both cases the store is
unchanged. -/
theorem invalid_parent_rejected (rows : List schema.Menu) (parentID : Str)
    (hne : parentID ≠ []) (hmiss : ∀ r ∈ rows, r.RecordID ≠ parentID) :
    (∀ (uuid : Str) (item : schema.Menu), item.ParentID = parentID →
      memBll.Create uuid item rows = (.error .ErrMenuInvalidParent, rows)) ∧
    (∀ (recordID : Str) (item oldItem : schema.Menu), item.ParentID = parentID →
      recordID ≠ parentID →
      memBll.MenuModel.Get recordID [] rows = (.ok (some oldItem), rows) →
      oldItem.ParentID ≠ parentID →
      memBll.Update recordID item rows = (.error .ErrMenuInvalidParent, rows)) := by
  have hpp : memBll.getParentPath parentID rows = (.error .ErrMenuInvalidParent, rows) := by
    rw [memBll_getParentPath, if_neg hne, find_none_of_missing rows parentID hmiss]
  constructor
  · intro uuid item hitem
    simp only [Menu.Create, hitem, hpp]
  · intro recordID item oldItem hitem hrec hget hold
    have h1 : ¬ recordID = item.ParentID := by rw [hitem]; exact hrec
    have h2 : ¬ parentID = oldItem.ParentID := fun h => hold h.symm
    have hwork : Menu.Update.work memBll recordID
        { item with ParentPath := oldItem.ParentPath } oldItem rows
        = (.error .ErrMenuInvalidParent, rows) := by
      simp only [Menu.Update.work, hitem, h2, ne_eq, not_false_eq_true, if_true, hpp]
    simp only [Menu.Update, h1, if_false, hget, memBll_TransModel,
      ExecTrans_rollback_error _ _ _ _ hwork]

/-- Witness of C6 amended, on the store of scenario B with the missing parent `X`. -/
theorem invalid_parent_rejected_witness :
    memBll.Create "N".toList { nodeG with ParentID := "X".toList } scenarioB
      = (.error .ErrMenuInvalidParent, scenarioB) ∧
    memBll.Update "C1".toList { nodeC1 with ParentID := "X".toList } scenarioB
      = (.error .ErrMenuInvalidParent, scenarioB) :=
  ⟨(invalid_parent_rejected scenarioB "X".toList (by decide) (by decide)).1 "N".toList
      { nodeG with ParentID := "X".toList } rfl,
   (invalid_parent_rejected scenarioB "X".toList (by decide) (by decide)).2 "C1".toList
      { nodeC1 with ParentID := "X".toList } nodeC1 rfl (by decide) (by decide) (by decide)⟩

/-! ## C7: atomicity of Update -/

/-- C7: with the transaction provider that commits on success and rolls back on
error, for every record store whose lookup of the id answers with a node and
leaves the state alone: if the unit of work of `Update` ends in an error, at
whichever step (parent lookup, prefix query, rewrite of some descendant, final
record update), then `Update` returns that error and the store state after the
call is the state before it. -/
theorem Update_atomic {σ : Type} (menu : model.IMenu σ) (recordID : Str)
    (item oldItem : schema.Menu) (s : σ) (err : Error)
    (hne : recordID ≠ item.ParentID)
    (hget : menu.Get recordID [] s = (.ok (some oldItem), s))
    (hfail : (Menu.Update.work (NewMenu model.rollbackTrans menu) recordID
      { item with ParentPath := oldItem.ParentPath } oldItem s).1 = .error err) :
    (NewMenu model.rollbackTrans menu).Update recordID item s = (.error err, s) := by
  have hget' : (NewMenu model.rollbackTrans menu).MenuModel.Get recordID [] s
      = (.ok (some oldItem), s) := hget
  have htr : (NewMenu model.rollbackTrans menu).TransModel = model.rollbackTrans := rfl
  have hwork : Menu.Update.work (NewMenu model.rollbackTrans menu) recordID
      { item with ParentPath := oldItem.ParentPath } oldItem s
      = (.error err, (Menu.Update.work (NewMenu model.rollbackTrans menu) recordID
          { item with ParentPath := oldItem.ParentPath } oldItem s).2) :=
    Prod.ext hfail rfl
  simp only [Menu.Update, hne, if_false, hget', htr, ExecTrans_rollback_error _ _ _ _ hwork]

/-- Witness of C7 (P6): `C1`, with descendants `G` and `H`, is moved under `R2`
on a store that has budget for one path rewrite only.  The unit of work
rewrites `G`, fails on `H` and leaves a changed store; `Update` returns the
failure with the store rolled back to the one before the call. -/
theorem Update_atomic_witness :
    (Menu.Update.work (NewMenu model.rollbackTrans flakyMenu) "C1".toList
        { nodeC1 with ParentID := "R2".toList } nodeC1 (scenarioB ++ [nodeH], 1))
      = (.error (.store 1),
          ([nodeR, nodeR2, nodeC1, { nodeG with ParentPath := "R2/C1".toList }, nodeH], 0)) ∧
    (NewMenu model.rollbackTrans flakyMenu).Update "C1".toList
        { nodeC1 with ParentID := "R2".toList } (scenarioB ++ [nodeH], 1)
      = (.error (.store 1), (scenarioB ++ [nodeH], 1)) :=
  ⟨by decide,
   Update_atomic flakyMenu "C1".toList { nodeC1 with ParentID := "R2".toList } nodeC1
     (scenarioB ++ [nodeH], 1) (.store 1) (by decide) (by decide) (by decide)⟩

/-! ## C2: subtree rewrite of Update -/

/-- C2 fails on the code: the new prefix of the descendants is built from
`item.RecordID`, not from the id of the updated node.  Moving `C1` (child of
`R`, with child `G`) under `R2` with an item whose own `RecordID` is empty
succeeds, stores `C1` with path `R2`, and leaves `G` with the path `R2/`
instead of `R2/C1`; with `item.RecordID = C1` the same call gives `R2/C1`. -/
theorem Update_reparent_prefix_from_item :
    memBll.Update "C1".toList ⟨[], "R2".toList, [], "child".toList⟩ scenarioB
      = (.ok { nodeC1 with ParentID := "R2".toList, ParentPath := "R2".toList },
          [nodeR, nodeR2,
            { nodeC1 with ParentID := "R2".toList, ParentPath := "R2".toList },
            { nodeG with ParentPath := "R2/".toList }]) ∧
    memBll.Update "C1".toList ⟨"C1".toList, "R2".toList, [], "child".toList⟩ scenarioB
      = (.ok { nodeC1 with ParentID := "R2".toList, ParentPath := "R2".toList },
          [nodeR, nodeR2,
            { nodeC1 with ParentID := "R2".toList, ParentPath := "R2".toList },
            { nodeG with ParentPath := "R2/C1".toList }]) := by
  decide

/-! ## Strings: full paths and separators -/

theorem fullPath_ne_nil (p i : Str) (hi : i ≠ []) : fullPath p i ≠ [] := by
  unfold fullPath
  split
  · exact hi
  · simp

theorem prefix_fullPath (p i : Str) : p <+: fullPath p i := by
  unfold fullPath
  split
  · rename_i h; rw [h]; exact List.nil_prefix
  · exact List.prefix_append _ _

theorem length_fullPath_gt (p i : Str) (hi : i ≠ []) : p.length < (fullPath p i).length := by
  have hpos : 0 < i.length := List.length_pos.mpr hi
  unfold fullPath
  split
  · rename_i h; rw [h]; simpa using hpos
  · simp

theorem sep_split_unique (a b i t : Str) (hi : '/' ∉ i) (ht : '/' ∉ t)
    (h : a ++ '/' :: i = b ++ '/' :: t) : a = b ∧ i = t := by
  rw [List.append_eq_append_iff] at h
  rcases h with ⟨c, hb, hc⟩ | ⟨c, ha, hc⟩
  · cases c with
    | nil => simp at hb hc; exact ⟨hb.symm, hc⟩
    | cons x c =>
      simp only [List.cons_append, List.cons.injEq] at hc
      exact absurd (by rw [hc.2]; simp) hi
  · cases c with
    | nil => simp at ha hc; exact ⟨ha, hc.symm⟩
    | cons x c =>
      simp only [List.cons_append, List.cons.injEq] at hc
      exact absurd (by rw [hc.2]; simp) ht

theorem prefix_append_cases (x b c : Str) (h : x <+: b ++ c) :
    x <+: b ∨ ∃ t, x = b ++ t ∧ t <+: c := by
  rcases List.prefix_or_prefix_of_prefix h (List.prefix_append b c) with h1 | ⟨t, rfl⟩
  · exact Or.inl h1
  · exact Or.inr ⟨t, rfl, (List.prefix_append_right_inj b).mp h⟩

theorem prefix_fullPath_cases (a b i d : Str) (hi : '/' ∉ i) (hd : '/' ∉ d)
    (hpre : i <+: d → i = d) (h : fullPath a i <+: fullPath b d) :
    fullPath a i <+: b ∨ (a = b ∧ i = d) := by
  have hnot : ∀ t : Str, t <+: d → '/' ∉ t := fun t ht hm => hd (ht.subset hm)
  by_cases hb : b = []
  · subst hb
    right
    by_cases ha : a = []
    · subst ha
      simp only [fullPath, if_true] at h
      exact ⟨rfl, hpre h⟩
    · simp only [fullPath, ha, if_false, if_true] at h
      exact absurd (h.subset (by simp)) hd
  · simp only [fullPath, hb, if_false] at h
    rcases prefix_append_cases _ _ _ h with h | ⟨t, ht, htp⟩
    · left; simpa [fullPath] using h
    · rw [List.prefix_cons_iff] at htp
      rcases htp with rfl | ⟨t', rfl, ht'⟩
      · left
        simp only [List.append_nil] at ht
        rw [show fullPath a i = b from ht]
      · right
        by_cases ha : a = []
        · subst ha
          simp only [if_true] at ht
          exact absurd (by rw [ht]; simp) hi
        · simp only [ha, if_false] at ht
          obtain ⟨hab, hit⟩ := sep_split_unique a b i t' hi (hnot t' ht') ht
          exact ⟨hab, hpre (hit ▸ ht')⟩

/-! ## The in-memory store: what a reparenting Update writes -/

theorem eq_of_RecordID_eq (rows : List schema.Menu) (hu : UniqueIDs rows) (r r' : schema.Menu)
    (hr : r ∈ rows) (hr' : r' ∈ rows) (h : r.RecordID = r'.RecordID) : r = r' :=
  List.inj_on_of_nodup_map hu hr hr' h

theorem find_map_of_RecordID (rows : List schema.Menu) (f : schema.Menu → schema.Menu)
    (hf : ∀ r, (f r).RecordID = r.RecordID) (k : Str) :
    (rows.map f).find? (fun r => decide (r.RecordID = k))
      = (rows.find? (fun r => decide (r.RecordID = k))).map f := by
  rw [List.find?_map]
  congr 2
  funext r
  simp [hf r]

theorem memBll_rewrite_step (opath npath : Str) (rows : List schema.Menu) (hu : UniqueIDs rows) :
    ∀ (ds done : List schema.Menu),
      (∀ d ∈ ds, d ∈ rows ∧ opath.length ≤ d.ParentPath.length) →
      Menu.Update.rewrite memBll opath npath ds
          (rows.map (fun r => if r ∈ done then rewritten opath.length npath r else r))
        = (.ok (), rows.map (fun r =>
            if r ∈ done ++ ds then rewritten opath.length npath r else r)) := by
  intro ds
  induction ds with
  | nil => intro done _; simp [Menu.Update.rewrite]
  | cons d ds ih =>
    intro done hds
    obtain ⟨hd, hlen⟩ := hds d (List.mem_cons_self _ _)
    have hstep : (rows.map (fun r => if r ∈ done then rewritten opath.length npath r else r)).map
          (fun r => if r.RecordID = d.RecordID
            then { r with ParentPath := npath ++ d.ParentPath.drop opath.length } else r)
        = rows.map (fun r => if r ∈ done ++ [d] then rewritten opath.length npath r else r) := by
      rw [List.map_map]
      apply List.map_congr_left
      intro r hr
      by_cases hid : r.RecordID = d.RecordID
      · have hrd : r = d := eq_of_RecordID_eq rows hu r d hr hd hid
        subst hrd
        by_cases hdone : r ∈ done <;> simp [hdone, rewritten]
      · have hrd : r ≠ d := fun h => hid (by rw [h])
        by_cases hdone : r ∈ done <;> simp [hdone, hid, hrd, rewritten]
    simp only [Menu.Update.rewrite, hlen, if_true, memBll_UpdateParentPath_eq, hstep]
    rw [ih (done ++ [d]) (fun x hx => hds x (List.mem_cons_of_mem _ hx))]
    simp

theorem memBll_rewrite_filter (opath npath : Str) (rows : List schema.Menu) (hu : UniqueIDs rows) :
    Menu.Update.rewrite memBll opath npath
        (rows.filter (fun r => opath.isPrefixOf r.ParentPath)) rows
      = (.ok (), rows.map (fun r =>
          if opath <+: r.ParentPath then rewritten opath.length npath r else r)) := by
  have h := memBll_rewrite_step opath npath rows hu
    (rows.filter (fun r => opath.isPrefixOf r.ParentPath)) [] (by
      intro d hd
      rw [List.mem_filter] at hd
      exact ⟨hd.1, (List.isPrefixOf_iff_prefix.mp hd.2).length_le⟩)
  simp only [List.not_mem_nil, if_false, List.map_id', List.nil_append] at h
  rw [h]
  congr 1
  apply List.map_congr_left
  intro r hr
  simp [List.mem_filter, hr]

theorem join_eq_fullPath (p i : Str) :
    (if p ≠ [] then p ++ Menu.getSep else p) ++ i = fullPath p i := by
  by_cases h : p = [] <;> simp [fullPath, Menu.getSep, h]

theorem reparentRow_RecordID (recordID : Str) (item : schema.Menu) (opath npath : Str)
    (r : schema.Menu) : (reparentRow recordID item opath npath r).RecordID = r.RecordID := by
  unfold reparentRow rewritten
  split
  · rename_i h; exact h.symm
  · split <;> rfl

theorem memBll_getUpdate_of_find (recordID : Str) (rows : List schema.Menu) (found : schema.Menu)
    (h : rows.find? (fun r => decide (r.RecordID = recordID)) = some found) :
    memBll.getUpdate recordID rows = (.ok found, rows) := by
  rw [memBll_getUpdate, h]

theorem memBll_Update_same_parent (rows : List schema.Menu) (recordID : Str)
    (item oldItem : schema.Menu) (hne : recordID ≠ item.ParentID)
    (hget : rows.find? (fun r => decide (r.RecordID = recordID)) = some oldItem)
    (hsame : item.ParentID = oldItem.ParentID) :
    memBll.Update recordID item rows
      = (.ok { item with ParentPath := oldItem.ParentPath, RecordID := recordID },
          rows.map (fun r => if r.RecordID = recordID
            then { item with ParentPath := oldItem.ParentPath, RecordID := recordID } else r)) := by
  have hwork : Menu.Update.work memBll recordID
      { item with ParentPath := oldItem.ParentPath } oldItem rows
      = (.ok (), rows.map (fun r => if r.RecordID = recordID
          then { item with ParentPath := oldItem.ParentPath, RecordID := recordID } else r)) := by
    simp only [Menu.Update.work, hsame, ne_eq, not_true_eq_false, if_false, memBll_Update_eq]
  have hfind : (rows.map (fun r => if r.RecordID = recordID
        then ({ item with ParentPath := oldItem.ParentPath, RecordID := recordID } : schema.Menu)
        else r)).find? (fun r => decide (r.RecordID = recordID))
      = some { item with ParentPath := oldItem.ParentPath, RecordID := recordID } := by
    rw [find_map_of_RecordID _ _ (by intro r; split <;> simp_all), hget]
    have hid : oldItem.RecordID = recordID := by simpa using List.find?_some hget
    simp [hid]
  simp only [Menu.Update, hne, if_false, memBll_Get_eq, hget, memBll_TransModel,
    ExecTrans_rollback_ok _ _ _ hwork, memBll_getUpdate_of_find _ _ _ hfind]

theorem memBll_Update_reparent (rows : List schema.Menu) (hu : UniqueIDs rows) (recordID : Str)
    (item oldItem : schema.Menu) (ppath : Str) (hne : recordID ≠ item.ParentID)
    (hget : rows.find? (fun r => decide (r.RecordID = recordID)) = some oldItem)
    (hre : item.ParentID ≠ oldItem.ParentID)
    (hpp : memBll.getParentPath item.ParentID rows = (.ok ppath, rows)) :
    memBll.Update recordID item rows
      = (.ok { item with ParentPath := ppath, RecordID := recordID },
          rows.map (reparentRow recordID { item with ParentPath := ppath }
            (fullPath oldItem.ParentPath recordID) (fullPath ppath item.RecordID))) := by
  have hid : oldItem.RecordID = recordID := by simpa using List.find?_some hget
  have hfilter : rows.filter
        (model.matchesParam { PrefixParentPath := fullPath oldItem.ParentPath recordID })
      = rows.filter (fun r => (fullPath oldItem.ParentPath recordID).isPrefixOf r.ParentPath) := by
    congr 1
  have hwork : Menu.Update.work memBll recordID
      { item with ParentPath := oldItem.ParentPath } oldItem rows
      = (.ok (), rows.map (reparentRow recordID { item with ParentPath := ppath }
            (fullPath oldItem.ParentPath recordID) (fullPath ppath item.RecordID))) := by
    simp only [Menu.Update.work, hre, ne_eq, not_false_eq_true, if_true, hpp, join_eq_fullPath,
      hid, memBll_Query_eq, hfilter, memBll_rewrite_filter _ _ _ hu, memBll_Update_eq,
      List.map_map]
    congr 1
    apply List.map_congr_left
    intro r hr
    simp only [Function.comp, reparentRow]
    by_cases h1 : r.RecordID = recordID
    · by_cases h2 : fullPath oldItem.ParentPath recordID <+: r.ParentPath <;>
        simp [h1, h2, rewritten]
    · by_cases h2 : fullPath oldItem.ParentPath recordID <+: r.ParentPath <;>
        simp [h1, h2, rewritten]
  have hfind : (rows.map (reparentRow recordID { item with ParentPath := ppath }
        (fullPath oldItem.ParentPath recordID) (fullPath ppath item.RecordID))).find?
        (fun r => decide (r.RecordID = recordID))
      = some { item with ParentPath := ppath, RecordID := recordID } := by
    rw [find_map_of_RecordID _ _ (reparentRow_RecordID _ _ _ _), hget]
    simp [reparentRow, hid]
  simp only [Menu.Update, hne, if_false, memBll_Get_eq, hget, memBll_TransModel,
    ExecTrans_rollback_ok _ _ _ hwork, memBll_getUpdate_of_find _ _ _ hfind]

/-! ## Invariant I1 under the three mutations -/

theorem getParentPath_ok_iff (rows : List schema.Menu) (parentID p : Str) :
    memBll.getParentPath parentID rows = (.ok p, rows) ↔ derivedPath rows parentID = some p := by
  rw [memBll_getParentPath]
  unfold derivedPath
  by_cases h : parentID = []
  · simp [h, eq_comm]
  · simp only [h, if_false]
    cases rows.find? (fun r => decide (r.RecordID = parentID)) <;> simp

theorem derivedPath_some (rows : List schema.Menu) (k p : Str) (hk : k ≠ [])
    (h : derivedPath rows k = some p) :
    ∃ P, rows.find? (fun r => decide (r.RecordID = k)) = some P ∧ P ∈ rows ∧ P.RecordID = k ∧
      p = fullPath P.ParentPath P.RecordID := by
  simp only [derivedPath, hk, if_false] at h
  cases hf : rows.find? (fun r => decide (r.RecordID = k)) with
  | none => simp [hf] at h
  | some P =>
    simp only [hf, Option.map_some', Option.some.injEq] at h
    exact ⟨P, rfl, List.mem_of_find?_eq_some hf, by simpa using List.find?_some hf, h.symm⟩

theorem derivedPath_map (rows : List schema.Menu) (f : schema.Menu → schema.Menu)
    (hf : ∀ r, (f r).RecordID = r.RecordID) (k : Str) :
    derivedPath (rows.map f) k =
      if k = [] then some []
      else (rows.find? (fun r => decide (r.RecordID = k))).map
        (fun p => fullPath (f p).ParentPath (f p).RecordID) := by
  unfold derivedPath
  rw [find_map_of_RecordID rows f hf k, Option.map_map]
  rfl

theorem I1_after_Create (rows : List schema.Menu) (h1 : I1 rows) (uuid ppath : Str)
    (item : schema.Menu) (hpp : derivedPath rows item.ParentID = some ppath) :
    I1 (rows ++ [{ item with ParentPath := ppath, RecordID := uuid }]) := by
  have mono : ∀ k p, derivedPath rows k = some p →
      derivedPath (rows ++ [{ item with ParentPath := ppath, RecordID := uuid }]) k = some p := by
    intro k p hk
    by_cases hk0 : k = []
    · simpa [derivedPath, hk0] using hk
    · obtain ⟨P, hP, -, -, rfl⟩ := derivedPath_some rows k p hk0 hk
      simp [derivedPath, hk0, List.find?_append, hP]
  intro r hr
  rw [List.mem_append, List.mem_singleton] at hr
  rcases hr with hr | rfl
  · exact mono _ _ (h1 r hr)
  · exact mono _ _ hpp

theorem I1_after_Delete (rows : List schema.Menu) (h1 : I1 rows) (recordID : Str)
    (hnone : ∀ r ∈ rows, r.ParentID ≠ recordID) :
    I1 (rows.filter (fun r => decide (r.RecordID ≠ recordID))) := by
  intro r hr
  rw [List.mem_filter] at hr
  have hk : r.ParentID ≠ recordID := hnone r hr.1
  have := h1 r hr.1
  unfold derivedPath at this ⊢
  by_cases h0 : r.ParentID = []
  · simpa [h0] using this
  · simp only [h0, if_false] at this ⊢
    rw [List.find?_filter]
    rw [← this]
    congr 2
    funext x
    by_cases hx : x.RecordID = r.ParentID
    · simp [hx, hk]
    · simp [hx]

theorem I1_after_Update_same_parent (rows : List schema.Menu) (h1 : I1 rows) (recordID : Str)
    (item oldItem : schema.Menu)
    (hget : rows.find? (fun r => decide (r.RecordID = recordID)) = some oldItem)
    (hsame : item.ParentID = oldItem.ParentID) :
    I1 (rows.map (fun r => if r.RecordID = recordID
      then { item with ParentPath := oldItem.ParentPath, RecordID := recordID } else r)) := by
  have hold : oldItem ∈ rows := List.mem_of_find?_eq_some hget
  have hf : ∀ r : schema.Menu, (if r.RecordID = recordID
      then ({ item with ParentPath := oldItem.ParentPath, RecordID := recordID } : schema.Menu)
      else r).RecordID = r.RecordID := by
    intro r; split <;> simp_all
  have hder : ∀ k, derivedPath (rows.map (fun r => if r.RecordID = recordID
      then ({ item with ParentPath := oldItem.ParentPath, RecordID := recordID } : schema.Menu)
      else r)) k = derivedPath rows k := by
    intro k
    rw [derivedPath_map rows _ hf k]
    unfold derivedPath
    by_cases hk : k = []
    · simp [hk]
    · simp only [hk, if_false]
      cases hfind : rows.find? (fun r => decide (r.RecordID = k)) with
      | none => rfl
      | some P =>
        have hid : P.RecordID = k := by simpa using List.find?_some hfind
        by_cases hkr : k = recordID
        · subst hkr
          have hPo : P = oldItem := by rw [hfind] at hget; exact Option.some.inj hget
          subst hPo
          simp [hid]
        · have : ¬ P.RecordID = recordID := by rw [hid]; exact hkr
          simp [this]
  intro r' hr'
  rw [List.mem_map] at hr'
  obtain ⟨r, hr, rfl⟩ := hr'
  rw [hder]
  by_cases hid : r.RecordID = recordID
  · simp only [hid, if_true, hsame]
    exact h1 oldItem hold
  · simp only [hid, if_false]
    exact h1 r hr

theorem fullPath_append_drop (npath path i : Str) (n : Nat) (hn : n ≤ path.length)
    (hpath : path ≠ []) (hnpath : npath ≠ []) :
    fullPath (npath ++ path.drop n) i = npath ++ (fullPath path i).drop n := by
  simp [fullPath, hpath, hnpath, List.drop_append_of_le_length hn]

theorem I1_after_reparent (rows : List schema.Menu) (h1 : I1 rows) (hw : WellFormed rows)
    (recordID : Str) (item oldItem : schema.Menu)
    (hget : rows.find? (fun r => decide (r.RecordID = recordID)) = some oldItem)
    (hne : recordID ≠ item.ParentID)
    (hpp : derivedPath rows item.ParentID = some item.ParentPath)
    (hout : ∀ q ∈ rows, q.RecordID = item.ParentID →
      ¬ fullPath oldItem.ParentPath recordID <+: q.ParentPath) :
    I1 (rows.map (reparentRow recordID item
      (fullPath oldItem.ParentPath recordID) (fullPath item.ParentPath recordID))) := by
  obtain ⟨-, hclean, hnopre⟩ := hw
  have hold : oldItem ∈ rows := List.mem_of_find?_eq_some hget
  have hoid : oldItem.RecordID = recordID := by simpa using List.find?_some hget
  have hidne : recordID ≠ [] := hoid ▸ (hclean oldItem hold).1
  have hidsep : '/' ∉ recordID := hoid ▸ (hclean oldItem hold).2
  have hopath : fullPath oldItem.ParentPath recordID ≠ [] := fullPath_ne_nil _ _ hidne
  have hnpath : fullPath item.ParentPath recordID ≠ [] := fullPath_ne_nil _ _ hidne
  intro r' hr'
  rw [List.mem_map] at hr'
  obtain ⟨r, hr, rfl⟩ := hr'
  rw [derivedPath_map rows _ (reparentRow_RecordID _ _ _ _)]
  have hr1 := h1 r hr
  by_cases hA : r.RecordID = recordID
  · -- the moved node itself
    have hrow : reparentRow recordID item
        (fullPath oldItem.ParentPath recordID) (fullPath item.ParentPath recordID) r
        = { item with RecordID := recordID } := by
      simp [reparentRow, hA]
    rw [hrow]
    by_cases hq0 : item.ParentID = []
    · have : item.ParentPath = [] := by simpa [derivedPath, hq0, eq_comm] using hpp
      simp [hq0, this]
    · obtain ⟨Q, hQ, hQmem, hQid, hQpath⟩ := derivedPath_some rows _ _ hq0 hpp
      have hQne : ¬ Q.RecordID = recordID := by rw [hQid]; exact fun h => hne h.symm
      simp [hq0, hQ, reparentRow, hQne, hout Q hQmem hQid, hQpath]
  · by_cases hB : fullPath oldItem.ParentPath recordID <+: r.ParentPath
    · -- a row of the moved subtree
      have hrow : reparentRow recordID item
          (fullPath oldItem.ParentPath recordID) (fullPath item.ParentPath recordID) r
          = rewritten (fullPath oldItem.ParentPath recordID).length (fullPath item.ParentPath recordID) r := by
        simp [reparentRow, hA, hB]
      rw [hrow]
      have hd0 : r.ParentID ≠ [] := by
        intro h0
        have : r.ParentPath = [] := by simpa [derivedPath, h0, eq_comm] using hr1
        rw [this] at hB
        exact hopath (List.prefix_nil.mp hB)
      obtain ⟨P, hP, hPmem, hPid, hpath⟩ := derivedPath_some rows _ _ hd0 hr1
      simp only [rewritten, hd0, if_false, hP, Option.map_some', Option.some.injEq]
      by_cases hPr : P.RecordID = recordID
      · have hPo : P = oldItem := by
          rw [← hPid, hPr, hget] at hP
          exact (Option.some.inj hP).symm
        subst hPo
        simp [reparentRow, hPr, hpath]
      · rw [hpath] at hB
        rcases prefix_fullPath_cases _ _ _ _ hidsep (hclean P hPmem).2
            (fun h => by
              have := hnopre oldItem hold P hPmem (by rw [hoid]; exact h)
              rw [hoid] at this
              exact this) hB with hpre | ⟨-, hcontra⟩
        · have hPne : P.ParentPath ≠ [] := by
            intro h0
            rw [h0] at hpre
            exact hopath (List.prefix_nil.mp hpre)
          have hrowP : reparentRow recordID item (fullPath oldItem.ParentPath recordID)
              (fullPath item.ParentPath recordID) P
              = rewritten (fullPath oldItem.ParentPath recordID).length
                  (fullPath item.ParentPath recordID) P := by
            simp [reparentRow, hPr, hpre]
          rw [hrowP, hpath]
          exact fullPath_append_drop _ _ _ _ hpre.length_le hPne hnpath
        · exact absurd hcontra.symm hPr
    · -- a row outside the moved subtree
      have hrow : reparentRow recordID item
          (fullPath oldItem.ParentPath recordID) (fullPath item.ParentPath recordID) r = r := by
        simp [reparentRow, hA, hB]
      rw [hrow]
      by_cases hd0 : r.ParentID = []
      · simpa [derivedPath, hd0] using hr1
      · obtain ⟨P, hP, hPmem, hPid, hpath⟩ := derivedPath_some rows _ _ hd0 hr1
        have hPr : ¬ P.RecordID = recordID := by
          intro hPr
          have hPo : P = oldItem := by
            rw [← hPid, hPr, hget] at hP
            exact (Option.some.inj hP).symm
          subst hPo
          rw [hPr] at hpath
          exact hB (hpath ▸ List.prefix_rfl)
        have hPpre : ¬ fullPath oldItem.ParentPath recordID <+: P.ParentPath := by
          intro hpre
          exact hB (hpath ▸ hpre.trans (prefix_fullPath _ _))
        simp [hd0, hP, reparentRow, hPr, hPpre, hpath]

/-! ## Outcomes of the operations on the in-memory store -/

theorem getParentPath_of_derivedPath_none (rows : List schema.Menu) (parentID : Str)
    (h : derivedPath rows parentID = none) :
    memBll.getParentPath parentID rows = (.error .ErrMenuInvalidParent, rows) := by
  rw [memBll_getParentPath]
  unfold derivedPath at h
  by_cases h0 : parentID = []
  · simp [h0] at h
  · simp only [h0, if_false] at h ⊢
    cases hf : rows.find? (fun r => decide (r.RecordID = parentID)) with
    | none => rfl
    | some P => simp [hf] at h

theorem memBll_Create_of_parent (rows : List schema.Menu) (uuid ppath : Str) (item : schema.Menu)
    (h : derivedPath rows item.ParentID = some ppath) :
    ∃ stored, memBll.Create uuid item rows
      = (.ok stored, rows ++ [{ item with ParentPath := ppath, RecordID := uuid }]) := by
  obtain ⟨q, hq, -, -⟩ := find_some_of_present
    (rows ++ [{ item with ParentPath := ppath, RecordID := uuid }]) uuid
    ⟨_, List.mem_append_right _ (List.mem_singleton_self _), rfl⟩
  refine ⟨q, ?_⟩
  simp only [Menu.Create, (getParentPath_ok_iff rows _ _).mpr h, memBll_Create_eq,
    memBll_getUpdate, hq]

theorem memBll_Create_of_no_parent (rows : List schema.Menu) (uuid : Str) (item : schema.Menu)
    (h : derivedPath rows item.ParentID = none) :
    memBll.Create uuid item rows = (.error .ErrMenuInvalidParent, rows) := by
  simp only [Menu.Create, getParentPath_of_derivedPath_none rows _ h]

theorem memBll_Update_reparent_missing (rows : List schema.Menu) (recordID : Str)
    (item oldItem : schema.Menu) (hne : recordID ≠ item.ParentID)
    (hget : rows.find? (fun r => decide (r.RecordID = recordID)) = some oldItem)
    (hre : item.ParentID ≠ oldItem.ParentID)
    (hpp : derivedPath rows item.ParentID = none) :
    memBll.Update recordID item rows = (.error .ErrMenuInvalidParent, rows) := by
  have hwork : Menu.Update.work memBll recordID
      { item with ParentPath := oldItem.ParentPath } oldItem rows
      = (.error .ErrMenuInvalidParent, rows) := by
    simp only [Menu.Update.work, hre, ne_eq, not_false_eq_true, if_true,
      getParentPath_of_derivedPath_none rows _ hpp]
  simp only [Menu.Update, hne, if_false, memBll_Get_eq, hget, memBll_TransModel,
    ExecTrans_rollback_error _ _ _ _ hwork]

theorem memBll_Update_self (rows : List schema.Menu) (recordID : Str) (item : schema.Menu)
    (h : recordID = item.ParentID) :
    memBll.Update recordID item rows = (.error .ErrMenuNotAllowSelf, rows) := by
  simp [Menu.Update, h]

theorem memBll_Update_no_node (rows : List schema.Menu) (recordID : Str) (item : schema.Menu)
    (hne : recordID ≠ item.ParentID)
    (hget : rows.find? (fun r => decide (r.RecordID = recordID)) = none) :
    memBll.Update recordID item rows = (.error .ErrNotFound, rows) := by
  simp only [Menu.Update, hne, if_false, memBll_Get_eq, hget]

theorem I1_of_Create_ok (rows : List schema.Menu) (h1 : I1 rows) (uuid : Str)
    (item stored : schema.Menu) (rows' : List schema.Menu)
    (hok : memBll.Create uuid item rows = (.ok stored, rows')) : I1 rows' := by
  cases hd : derivedPath rows item.ParentID with
  | none =>
    rw [memBll_Create_of_no_parent rows uuid item hd] at hok
    simp at hok
  | some ppath =>
    obtain ⟨st, hst⟩ := memBll_Create_of_parent rows uuid ppath item hd
    rw [hst] at hok
    have : rows ++ [{ item with ParentPath := ppath, RecordID := uuid }] = rows' :=
      (Prod.mk.inj hok).2
    rw [← this]
    exact I1_after_Create rows h1 uuid ppath item hd

theorem I1_of_Delete_ok (rows : List schema.Menu) (h1 : I1 rows) (recordID : Str)
    (rows' : List schema.Menu) (hok : memBll.Delete recordID rows = (.ok (), rows')) :
    I1 rows' := by
  by_cases hc : ∃ r ∈ rows, r.ParentID = recordID
  · rw [memBll_Delete_of_child rows recordID hc] at hok
    simp at hok
  · have hnone : ∀ r ∈ rows, r.ParentID ≠ recordID := fun r hr h => hc ⟨r, hr, h⟩
    rw [memBll_Delete_of_no_child rows recordID hnone, memBll_Delete_eq] at hok
    rw [← (Prod.mk.inj hok).2]
    exact I1_after_Delete rows h1 recordID hnone

theorem I1_of_Update_ok (rows : List schema.Menu) (h1 : I1 rows) (recordID : Str)
    (item oldItem stored : schema.Menu) (rows' : List schema.Menu)
    (hget : rows.find? (fun r => decide (r.RecordID = recordID)) = some oldItem)
    (hok : memBll.Update recordID item rows = (.ok stored, rows'))
    (hcase : item.ParentID = oldItem.ParentID ∨
      (WellFormed rows ∧ item.RecordID = recordID ∧
        ∀ q ∈ rows, q.RecordID = item.ParentID →
          ¬ fullPath oldItem.ParentPath recordID <+: q.ParentPath)) :
    I1 rows' := by
  by_cases hne : recordID = item.ParentID
  · rw [memBll_Update_self rows recordID item hne] at hok
    simp at hok
  · by_cases hsame : item.ParentID = oldItem.ParentID
    · rw [memBll_Update_same_parent rows recordID item oldItem hne hget hsame] at hok
      rw [← (Prod.mk.inj hok).2]
      exact I1_after_Update_same_parent rows h1 recordID item oldItem hget hsame
    · rcases hcase with hcase | ⟨hw, hself, hout⟩
      · exact absurd hcase hsame
      · cases hd : derivedPath rows item.ParentID with
        | none =>
          rw [memBll_Update_reparent_missing rows recordID item oldItem hne hget hsame hd] at hok
          simp at hok
        | some ppath =>
          rw [memBll_Update_reparent rows hw.1 recordID item oldItem ppath hne hget hsame
            ((getParentPath_ok_iff rows _ _).mpr hd)] at hok
          rw [← (Prod.mk.inj hok).2, hself]
          exact I1_after_reparent rows h1 hw recordID { item with ParentPath := ppath } oldItem
            hget hne hd hout

/-! ## C8: invariant I1 -/

theorem find_of_Get (rows : List schema.Menu) (recordID : Str) (oldItem : schema.Menu)
    (hget : memBll.MenuModel.Get recordID [] rows = (.ok (some oldItem), rows)) :
    rows.find? (fun r => decide (r.RecordID = recordID)) = some oldItem := by
  rw [memBll_Get_eq] at hget
  exact Except.ok.inj (Prod.mk.inj hget).1

/-- C8, as stated, fails: the store `R`, `C1` (child of `R`), `G` (child of
`C1`) satisfies I1; moving `R` under its own descendant `C1` succeeds and
leaves `R` with the path `R/C1` while its parent `C1` now has the full path
`R/C1/R/C1`, so I1 no longer holds. -/
theorem I1_broken_by_move_under_descendant :
    I1 [nodeR, nodeC1, nodeG] ∧
    memBll.Update "R".toList { nodeR with ParentID := "C1".toList } [nodeR, nodeC1, nodeG]
      = (.ok { nodeR with ParentID := "C1".toList, ParentPath := "R/C1".toList },
          [{ nodeR with ParentID := "C1".toList, ParentPath := "R/C1".toList },
           { nodeC1 with ParentPath := "R/C1/R".toList },
           { nodeG with ParentPath := "R/C1/R/C1".toList }]) ∧
    ¬ I1 [{ nodeR with ParentID := "C1".toList, ParentPath := "R/C1".toList },
          { nodeC1 with ParentPath := "R/C1/R".toList },
          { nodeG with ParentPath := "R/C1/R/C1".toList }] := by
  decide

/-- C8, amended: on a store satisfying I1, the store reached by a successful
`Create`, by a successful `Delete`, and by a successful `Update` that keeps the
`ParentID` of the node again satisfies I1; so does the store reached by a
successful `Update` that changes the `ParentID`, provided the identifiers of
the store are unique, non-empty, free of `/` and prefix-free, the item carries
the id of the updated node as its `RecordID`, and the path of the new parent
does not start with the old full path of the node (the new parent is outside
the moved subtree). -/
theorem I1_preserved (rows : List schema.Menu) (h1 : I1 rows) :
    (∀ (uuid : Str) (item stored : schema.Menu) (rows' : List schema.Menu),
      memBll.Create uuid item rows = (.ok stored, rows') → I1 rows') ∧
    (∀ (recordID : Str) (rows' : List schema.Menu),
      memBll.Delete recordID rows = (.ok (), rows') → I1 rows') ∧
    (∀ (recordID : Str) (item oldItem stored : schema.Menu) (rows' : List schema.Menu),
      memBll.MenuModel.Get recordID [] rows = (.ok (some oldItem), rows) →
      memBll.Update recordID item rows = (.ok stored, rows') →
      (item.ParentID = oldItem.ParentID ∨
        (WellFormed rows ∧ item.RecordID = recordID ∧
          ∀ q ∈ rows, q.RecordID = item.ParentID →
            ¬ fullPath oldItem.ParentPath recordID <+: q.ParentPath)) →
      I1 rows') := by
  refine ⟨?_, ?_, ?_⟩
  · intro uuid item stored rows' hok
    exact I1_of_Create_ok rows h1 uuid item stored rows' hok
  · intro recordID rows' hok
    exact I1_of_Delete_ok rows h1 recordID rows' hok
  · intro recordID item oldItem stored rows' hget hok hcase
    exact I1_of_Update_ok rows h1 recordID item oldItem stored rows'
      (find_of_Get rows recordID oldItem hget) hok hcase

/-- Witness of C8 amended on the store `R`, `S`, `C1`, `G`: creating a child of
`G`, deleting `G`, renaming `C1`, and moving `C1` with its child `G` under `S`. -/
theorem I1_preserved_witness :
    I1 scenarioS ∧
    I1 (scenarioS ++ [⟨"N".toList, "G".toList, "R/C1/G".toList, "new".toList⟩]) ∧
    I1 [nodeR, nodeS, nodeC1] ∧
    I1 [nodeR, nodeS, { nodeC1 with Payload := "renamed".toList }, nodeG] ∧
    I1 [nodeR, nodeS, { nodeC1 with ParentID := "S".toList, ParentPath := "S".toList },
        { nodeG with ParentPath := "S/C1".toList }] :=
  ⟨by decide,
   (I1_preserved scenarioS (by decide)).1 "N".toList ⟨[], "G".toList, [], "new".toList⟩
     ⟨"N".toList, "G".toList, "R/C1/G".toList, "new".toList⟩ _ (by decide),
   (I1_preserved scenarioS (by decide)).2.1 "G".toList _ (by decide),
   (I1_preserved scenarioS (by decide)).2.2 "C1".toList
     { nodeC1 with Payload := "renamed".toList } nodeC1
     { nodeC1 with Payload := "renamed".toList } _ (by decide) (by decide) (Or.inl rfl),
   (I1_preserved scenarioS (by decide)).2.2 "C1".toList
     { nodeC1 with ParentID := "S".toList } nodeC1
     { nodeC1 with ParentID := "S".toList, ParentPath := "S".toList } _ (by decide)
     (by decide) (Or.inr ⟨by decide, rfl, by decide⟩)⟩

/-! ## Segments of a path and invariant I2 -/

theorem splitSep_ne_nil (s : Str) : splitSep s ≠ [] := by
  cases s with
  | nil => simp [splitSep]
  | cons c cs =>
    unfold splitSep
    split
    · simp
    · split <;> simp

theorem splitSep_append_sep (a b : Str) :
    splitSep (a ++ '/' :: b) = splitSep a ++ splitSep b := by
  induction a with
  | nil => simp [splitSep]
  | cons c a ih =>
    by_cases hc : c = '/'
    · simp [splitSep, hc, ih]
    · cases hs : splitSep a with
      | nil => exact absurd hs (splitSep_ne_nil a)
      | cons seg segs => simp [splitSep, hc, ih, hs]

theorem splitSep_of_no_sep (i : Str) (hi : '/' ∉ i) : splitSep i = [i] := by
  induction i with
  | nil => rfl
  | cons c i ih =>
    have hc : c ≠ '/' := fun h => hi (by simp [h])
    have hi' : '/' ∉ i := fun h => hi (List.mem_cons_of_mem _ h)
    simp [splitSep, hc, ih hi']

theorem segments_fullPath (p i : Str) (hi : '/' ∉ i) (hne : i ≠ []) :
    segments (fullPath p i) = segments p ++ [i] := by
  by_cases hp : p = []
  · simp [segments, fullPath, hp, hne, splitSep_of_no_sep i hi]
  · simp [segments, fullPath, hp, splitSep_append_sep, splitSep_of_no_sep i hi]

theorem segments_are_ancestors (rows : List schema.Menu) (h1 : I1 rows) (hc : CleanIDs rows) :
    ∀ (n : Nat), ∀ r ∈ rows, r.ParentPath.length ≤ n → ∀ x ∈ segments r.ParentPath,
      ∃ X ∈ rows, X.RecordID = x ∧
        (fullPath X.ParentPath X.RecordID).length ≤ r.ParentPath.length := by
  intro n
  induction n with
  | zero =>
    intro r _ hlen x hx
    have : r.ParentPath = [] := List.length_eq_zero.mp (Nat.le_zero.mp hlen)
    simp [segments, this] at hx
  | succ n ih =>
    intro r hr hlen x hx
    have hr1 := h1 r hr
    by_cases hd0 : r.ParentID = []
    · have : r.ParentPath = [] := by simpa [derivedPath, hd0, eq_comm] using hr1
      simp [segments, this] at hx
    · obtain ⟨P, -, hPmem, -, hpath⟩ := derivedPath_some rows _ _ hd0 hr1
      obtain ⟨hPne, hPsep⟩ := hc P hPmem
      rw [hpath, segments_fullPath _ _ hPsep hPne, List.mem_append, List.mem_singleton] at hx
      rcases hx with hx | hx
      · have hlt : P.ParentPath.length < r.ParentPath.length := by
          rw [hpath]; exact length_fullPath_gt _ _ hPne
        obtain ⟨X, hX, hXid, hXlen⟩ := ih P hPmem (by omega) x hx
        exact ⟨X, hX, hXid, by omega⟩
      · exact ⟨P, hPmem, hx.symm, by rw [hpath]⟩

theorem I2_of_I1 (rows : List schema.Menu) (h1 : I1 rows) (hu : UniqueIDs rows)
    (hc : CleanIDs rows) : I2 rows := by
  intro r hr hmem
  obtain ⟨X, hX, hXid, hXlen⟩ :=
    segments_are_ancestors rows h1 hc _ r hr (Nat.le_refl _) _ hmem
  have hXr : X = r := eq_of_RecordID_eq rows hu X r hX hr hXid
  subst hXr
  have := length_fullPath_gt X.ParentPath X.RecordID (hc X hX).1
  omega

theorem map_RecordID_of_preserving (rows : List schema.Menu) (f : schema.Menu → schema.Menu)
    (hf : ∀ r, (f r).RecordID = r.RecordID) :
    (rows.map f).map (fun r => r.RecordID) = rows.map (fun r => r.RecordID) := by
  rw [List.map_map]
  apply List.map_congr_left
  intro r _
  exact hf r

theorem UniqueIDs_map (rows : List schema.Menu) (f : schema.Menu → schema.Menu)
    (hf : ∀ r, (f r).RecordID = r.RecordID) (hu : UniqueIDs rows) : UniqueIDs (rows.map f) := by
  unfold UniqueIDs at hu ⊢
  rw [map_RecordID_of_preserving rows f hf]
  exact hu

theorem CleanIDs_map (rows : List schema.Menu) (f : schema.Menu → schema.Menu)
    (hf : ∀ r, (f r).RecordID = r.RecordID) (hc : CleanIDs rows) : CleanIDs (rows.map f) := by
  intro r' hr'
  rw [List.mem_map] at hr'
  obtain ⟨r, hr, rfl⟩ := hr'
  rw [hf r]
  exact hc r hr

theorem I2_of_Create_ok (rows : List schema.Menu) (h2 : I2 rows) (uuid ppath : Str)
    (item stored : schema.Menu) (rows' : List schema.Menu)
    (hok : memBll.Create uuid item rows = (.ok stored, rows'))
    (hpp : derivedPath rows item.ParentID = some ppath) (hfresh : uuid ∉ segments ppath) :
    I2 rows' := by
  obtain ⟨st, hst⟩ := memBll_Create_of_parent rows uuid ppath item hpp
  rw [hst] at hok
  rw [← (Prod.mk.inj hok).2]
  intro r hr
  rw [List.mem_append, List.mem_singleton] at hr
  rcases hr with hr | rfl
  · exact h2 r hr
  · exact hfresh

theorem I2_of_Update_same_parent (rows : List schema.Menu) (h2 : I2 rows) (recordID : Str)
    (item oldItem stored : schema.Menu) (rows' : List schema.Menu)
    (hget : rows.find? (fun r => decide (r.RecordID = recordID)) = some oldItem)
    (hok : memBll.Update recordID item rows = (.ok stored, rows'))
    (hsame : item.ParentID = oldItem.ParentID) : I2 rows' := by
  by_cases hne : recordID = item.ParentID
  · rw [memBll_Update_self rows recordID item hne] at hok
    simp at hok
  · rw [memBll_Update_same_parent rows recordID item oldItem hne hget hsame] at hok
    rw [← (Prod.mk.inj hok).2]
    have hold : oldItem ∈ rows := List.mem_of_find?_eq_some hget
    have hoid : oldItem.RecordID = recordID := by simpa using List.find?_some hget
    intro r' hr'
    rw [List.mem_map] at hr'
    obtain ⟨r, hr, rfl⟩ := hr'
    by_cases hid : r.RecordID = recordID
    · simp only [hid, if_true]
      exact hoid ▸ h2 oldItem hold
    · simp only [hid, if_false]
      exact h2 r hr

theorem fresh_not_segment (rows : List schema.Menu) (h1 : I1 rows) (hc : CleanIDs rows)
    (uuid parentID ppath : Str) (hfresh : ∀ r ∈ rows, r.RecordID ≠ uuid)
    (hpp : derivedPath rows parentID = some ppath) : uuid ∉ segments ppath := by
  by_cases h0 : parentID = []
  · have : ppath = [] := by simpa [derivedPath, h0, eq_comm] using hpp
    simp [segments, this]
  · obtain ⟨Q, -, hQmem, -, rfl⟩ := derivedPath_some rows _ _ h0 hpp
    obtain ⟨hQne, hQsep⟩ := hc Q hQmem
    rw [segments_fullPath _ _ hQsep hQne, List.mem_append, List.mem_singleton]
    rintro (hx | hx)
    · obtain ⟨X, hX, hXid, -⟩ :=
        segments_are_ancestors rows h1 hc _ Q hQmem (Nat.le_refl _) _ hx
      exact hfresh X hX hXid
    · exact hfresh Q hQmem hx.symm

theorem segments_fullPath_append (p i t : Str) (hne : i ≠ []) :
    segments (fullPath p i ++ t) = segments p ++ splitSep (i ++ t) := by
  by_cases hp : p = []
  · simp [segments, fullPath, hp, hne]
  · simp [segments, fullPath, hp, splitSep_append_sep]

theorem I2_after_reparent (rows : List schema.Menu) (h2 : I2 rows) (recordID : Str)
    (item oldItem : schema.Menu) (hne : recordID ≠ [])
    (hself : recordID ∉ segments item.ParentPath)
    (hsub : ∀ d ∈ rows, fullPath oldItem.ParentPath recordID <+: d.ParentPath →
      d.RecordID ∉ segments item.ParentPath) :
    I2 (rows.map (reparentRow recordID item
      (fullPath oldItem.ParentPath recordID) (fullPath item.ParentPath recordID))) := by
  intro r' hr'
  rw [List.mem_map] at hr'
  obtain ⟨r, hr, rfl⟩ := hr'
  rw [reparentRow_RecordID]
  by_cases hA : r.RecordID = recordID
  · simp only [reparentRow, hA, if_true]
    exact hself
  · by_cases hB : fullPath oldItem.ParentPath recordID <+: r.ParentPath
    · simp only [reparentRow, hA, hB, if_true, if_false, rewritten]
      have hr2 := h2 r hr
      have hsplit := List.prefix_iff_eq_append.mp hB
      rw [← hsplit, segments_fullPath_append _ _ _ hne, List.mem_append, not_or] at hr2
      rw [segments_fullPath_append _ _ _ hne, List.mem_append, not_or]
      exact ⟨hsub r hr hB, hr2.2⟩
    · simp only [reparentRow, hA, hB, if_false]
      exact h2 r hr

theorem I2_of_Update_reparent (rows : List schema.Menu) (h2 : I2 rows) (hu : UniqueIDs rows)
    (recordID ppath : Str) (item oldItem stored : schema.Menu) (rows' : List schema.Menu)
    (hget : rows.find? (fun r => decide (r.RecordID = recordID)) = some oldItem)
    (hpp : derivedPath rows item.ParentID = some ppath)
    (hre : item.ParentID ≠ oldItem.ParentID)
    (hok : memBll.Update recordID item rows = (.ok stored, rows'))
    (hne : recordID ≠ []) (hitem : item.RecordID = recordID)
    (hself : recordID ∉ segments ppath)
    (hsub : ∀ d ∈ rows, fullPath oldItem.ParentPath recordID <+: d.ParentPath →
      d.RecordID ∉ segments ppath) :
    I2 rows' := by
  by_cases hne' : recordID = item.ParentID
  · rw [memBll_Update_self rows recordID item hne'] at hok
    simp at hok
  · rw [memBll_Update_reparent rows hu recordID item oldItem ppath hne' hget hre
      ((getParentPath_ok_iff rows _ _).mpr hpp)] at hok
    rw [← (Prod.mk.inj hok).2, hitem]
    exact I2_after_reparent rows h2 recordID { item with ParentPath := ppath } oldItem hne
      hself hsub

theorem Update_ok_rows (rows : List schema.Menu) (hu : UniqueIDs rows) (recordID : Str)
    (item stored : schema.Menu) (rows' : List schema.Menu)
    (hok : memBll.Update recordID item rows = (.ok stored, rows')) :
    ∃ f : schema.Menu → schema.Menu, (∀ r, (f r).RecordID = r.RecordID) ∧ rows' = rows.map f := by
  by_cases hne : recordID = item.ParentID
  · rw [memBll_Update_self rows recordID item hne] at hok
    simp at hok
  · cases hget : rows.find? (fun r => decide (r.RecordID = recordID)) with
    | none =>
      rw [memBll_Update_no_node rows recordID item hne hget] at hok
      simp at hok
    | some oldItem =>
      by_cases hsame : item.ParentID = oldItem.ParentID
      · rw [memBll_Update_same_parent rows recordID item oldItem hne hget hsame] at hok
        exact ⟨_, by intro r; split <;> simp_all, (Prod.mk.inj hok).2.symm⟩
      · cases hd : derivedPath rows item.ParentID with
        | none =>
          rw [memBll_Update_reparent_missing rows recordID item oldItem hne hget hsame hd] at hok
          simp at hok
        | some ppath =>
          rw [memBll_Update_reparent rows hu recordID item oldItem ppath hne hget hsame
            ((getParentPath_ok_iff rows _ _).mpr hd)] at hok
          exact ⟨_, reparentRow_RecordID _ _ _ _, (Prod.mk.inj hok).2.symm⟩

/-! ## C9: invariant I2 -/

/-- C9, as stated, fails: in the store `R`, `C1` (child of `R`) no node's id is
a segment of its own path; moving `R` under the existing node `C1`, which is
not `R` itself, succeeds and leaves `R` with the path `R/C1`, which has the
segment `R`. -/
theorem I2_broken_by_move_under_descendant :
    I2 [nodeR, nodeC1] ∧
    (∃ r ∈ [nodeR, nodeC1], r.RecordID = "C1".toList) ∧ "C1".toList ≠ "R".toList ∧
    memBll.Update "R".toList { nodeR with ParentID := "C1".toList } [nodeR, nodeC1]
      = (.ok { nodeR with ParentID := "C1".toList, ParentPath := "R/C1".toList },
          [{ nodeR with ParentID := "C1".toList, ParentPath := "R/C1".toList },
           { nodeC1 with ParentPath := "R/C1/R".toList }]) ∧
    ¬ I2 [{ nodeR with ParentID := "C1".toList, ParentPath := "R/C1".toList },
          { nodeC1 with ParentPath := "R/C1/R".toList }] := by
  decide

/-- C9, amended: on a store in which no node's `RecordID` is a segment of its
own `ParentPath`, this remains so (1) after a successful `Create` whose
generated id is not a segment of the path computed for the new node, (2) after
a successful `Update` that keeps the `ParentID` of the node, and (3), the store
being keyed by unique ids, after a successful `Update` that moves a node of
non-empty id, with `item.RecordID` equal to that id, to a new path that has as
a segment neither the id of the node nor the id of any record whose path
starts with the old full path of the node.  (4) If the store moreover
satisfies I1 and its identifiers are unique, non-empty, free of `/` and
prefix-free, it remains so after a successful `Create` with an id that no
record has yet, and after a successful `Update` that moves the node, with
`item.RecordID` equal to the id of the node, under a parent whose path does not
start with the old full path of the node (a parent outside the moved
subtree). -/
theorem I2_preserved (rows : List schema.Menu) (h2 : I2 rows) :
    (∀ (uuid ppath : Str) (item stored : schema.Menu) (rows' : List schema.Menu),
      memBll.getParentPath item.ParentID rows = (.ok ppath, rows) →
      uuid ∉ segments ppath →
      memBll.Create uuid item rows = (.ok stored, rows') → I2 rows') ∧
    (∀ (recordID : Str) (item oldItem stored : schema.Menu) (rows' : List schema.Menu),
      memBll.MenuModel.Get recordID [] rows = (.ok (some oldItem), rows) →
      item.ParentID = oldItem.ParentID →
      memBll.Update recordID item rows = (.ok stored, rows') → I2 rows') ∧
    (UniqueIDs rows →
      ∀ (recordID ppath : Str) (item oldItem stored : schema.Menu) (rows' : List schema.Menu),
        memBll.MenuModel.Get recordID [] rows = (.ok (some oldItem), rows) →
        memBll.getParentPath item.ParentID rows = (.ok ppath, rows) →
        item.ParentID ≠ oldItem.ParentID →
        recordID ≠ [] → item.RecordID = recordID →
        recordID ∉ segments ppath →
        (∀ d ∈ rows, fullPath oldItem.ParentPath recordID <+: d.ParentPath →
          d.RecordID ∉ segments ppath) →
        memBll.Update recordID item rows = (.ok stored, rows') → I2 rows') ∧
    (I1 rows → WellFormed rows →
      (∀ (uuid : Str) (item stored : schema.Menu) (rows' : List schema.Menu),
        (∀ r ∈ rows, r.RecordID ≠ uuid) →
        memBll.Create uuid item rows = (.ok stored, rows') → I2 rows') ∧
      (∀ (recordID : Str) (item oldItem stored : schema.Menu) (rows' : List schema.Menu),
        memBll.MenuModel.Get recordID [] rows = (.ok (some oldItem), rows) →
        item.RecordID = recordID →
        (∀ q ∈ rows, q.RecordID = item.ParentID →
          ¬ fullPath oldItem.ParentPath recordID <+: q.ParentPath) →
        memBll.Update recordID item rows = (.ok stored, rows') → I2 rows')) := by
  refine ⟨?_, ?_, ?_, ?_⟩
  · intro uuid ppath item stored rows' hpp hfresh hok
    exact I2_of_Create_ok rows h2 uuid ppath item stored rows' hok
      ((getParentPath_ok_iff rows _ _).mp hpp) hfresh
  · intro recordID item oldItem stored rows' hget hsame hok
    exact I2_of_Update_same_parent rows h2 recordID item oldItem stored rows'
      (find_of_Get rows recordID oldItem hget) hok hsame
  · intro hu recordID ppath item oldItem stored rows' hget hpp hre hne hitem hself hsub hok
    exact I2_of_Update_reparent rows h2 hu recordID ppath item oldItem stored rows'
      (find_of_Get rows recordID oldItem hget) ((getParentPath_ok_iff rows _ _).mp hpp)
      hre hok hne hitem hself hsub
  · intro h1 hw
    constructor
    · intro uuid item stored rows' hfresh hok
      cases hd : derivedPath rows item.ParentID with
      | none =>
        rw [memBll_Create_of_no_parent rows uuid item hd] at hok
        simp at hok
      | some ppath =>
        exact I2_of_Create_ok rows h2 uuid ppath item stored rows' hok hd
          (fresh_not_segment rows h1 hw.2.1 uuid _ ppath hfresh hd)
    · intro recordID item oldItem stored rows' hget hself hout hok
      have hfind := find_of_Get rows recordID oldItem hget
      have h1' : I1 rows' :=
        I1_of_Update_ok rows h1 recordID item oldItem stored rows' hfind hok
          (Or.inr ⟨hw, hself, hout⟩)
      obtain ⟨f, hf, rfl⟩ := Update_ok_rows rows hw.1 recordID item stored rows' hok
      exact I2_of_I1 _ h1' (UniqueIDs_map rows f hf hw.1) (CleanIDs_map rows f hf hw.2.1)

/-- Witness of C9 amended.  On the store `R`, `S`, `C1`, `G`: creating a child
of `G` with the new id `N`, renaming `C1`, creating `M` under `C1`, and moving
`C1` with its child `G` under `S`.  On the store of scenario B, whose ids `R`
and `R2` share a prefix: moving `C1` with its child `G` under `R2`. -/
theorem I2_preserved_witness :
    I2 scenarioS ∧
    I2 (scenarioS ++ [⟨"N".toList, "G".toList, "R/C1/G".toList, "new".toList⟩]) ∧
    I2 [nodeR, nodeS, { nodeC1 with Payload := "renamed".toList }, nodeG] ∧
    I2 [nodeR, nodeR2, { nodeC1 with ParentID := "R2".toList, ParentPath := "R2".toList },
        { nodeG with ParentPath := "R2/C1".toList }] ∧
    I2 (scenarioS ++ [⟨"M".toList, "C1".toList, "R/C1".toList, "new".toList⟩]) ∧
    I2 [nodeR, nodeS, { nodeC1 with ParentID := "S".toList, ParentPath := "S".toList },
        { nodeG with ParentPath := "S/C1".toList }] :=
  ⟨by decide,
   (I2_preserved scenarioS (by decide)).1 "N".toList "R/C1/G".toList
     ⟨[], "G".toList, [], "new".toList⟩
     ⟨"N".toList, "G".toList, "R/C1/G".toList, "new".toList⟩ _ (by decide) (by decide)
     (by decide),
   (I2_preserved scenarioS (by decide)).2.1 "C1".toList
     { nodeC1 with Payload := "renamed".toList } nodeC1
     { nodeC1 with Payload := "renamed".toList } _ (by decide) rfl (by decide),
   (I2_preserved scenarioB (by decide)).2.2.1 (by decide) "C1".toList "R2".toList
     { nodeC1 with ParentID := "R2".toList } nodeC1
     { nodeC1 with ParentID := "R2".toList, ParentPath := "R2".toList } _ (by decide)
     (by decide) (by decide) (by decide) rfl (by decide) (by decide) (by decide),
   ((I2_preserved scenarioS (by decide)).2.2.2 (by decide) (by decide)).1 "M".toList
     ⟨[], "C1".toList, [], "new".toList⟩
     ⟨"M".toList, "C1".toList, "R/C1".toList, "new".toList⟩ _ (by decide) (by decide),
   ((I2_preserved scenarioS (by decide)).2.2.2 (by decide) (by decide)).2 "C1".toList
     { nodeC1 with ParentID := "S".toList } nodeC1
     { nodeC1 with ParentID := "S".toList, ParentPath := "S".toList } _ (by decide) rfl
     (by decide) (by decide)⟩

/-! ## C11: Delete of a missing node -/

/-- C11, as stated, fails: the store of scenario B has no node `Z`, and
`Delete` of `Z` succeeds, as `Delete` looks only for children of the id. -/
theorem Delete_missing_counterexample :
    (∀ r ∈ scenarioB, r.RecordID ≠ "Z".toList) ∧
    memBll.Delete "Z".toList scenarioB = (.ok (), scenarioB) := by
  decide

theorem filter_ne_of_missing (rows : List schema.Menu) (recordID : Str)
    (hmiss : ∀ r ∈ rows, r.RecordID ≠ recordID) :
    rows.filter (fun r => decide (r.RecordID ≠ recordID)) = rows := by
  rw [List.filter_eq_self]
  intro r hr
  simpa using hmiss r hr

/-- C11, amended: for an id that no node of the store has, `Delete` fails with
`ErrMenuNotAllowDelete` when some record names the id as its `ParentID`, and
succeeds otherwise; the store is unchanged in both cases.  For every store,
`Delete` returns `ErrNotFound` only if the query for children or the deletion
by the store returns it. -/
theorem Delete_missing_node (rows : List schema.Menu) (recordID : Str)
    (hmiss : ∀ r ∈ rows, r.RecordID ≠ recordID) :
    ((∃ r ∈ rows, r.ParentID = recordID) →
      memBll.Delete recordID rows = (.error .ErrMenuNotAllowDelete, rows)) ∧
    ((∀ r ∈ rows, r.ParentID ≠ recordID) → memBll.Delete recordID rows = (.ok (), rows)) ∧
    (∀ (σ : Type) (a : Menu σ) (s : σ), (a.Delete recordID s).1 = .error .ErrNotFound →
      (a.MenuModel.Query { ParentID := some recordID }
          [{ PageParam := some { PageSize := -1 } }] s).1 = .error .ErrNotFound ∨
      ∃ s1, (a.MenuModel.Delete recordID s1).1 = .error .ErrNotFound) := by
  refine ⟨memBll_Delete_of_child rows recordID, ?_, ?_⟩
  · intro hnone
    rw [memBll_Delete_of_no_child rows recordID hnone, memBll_Delete_eq,
      filter_ne_of_missing rows recordID hmiss]
  · intro σ a s h
    unfold Menu.Delete at h
    generalize a.MenuModel.Query { ParentID := some recordID }
      [{ PageParam := some { PageSize := -1 } }] s = q at h ⊢
    obtain ⟨res, s1⟩ := q
    cases res with
    | error e => left; simpa using h
    | ok result =>
      simp only at h
      split at h
      · simp at h
      · exact Or.inr ⟨s1, h⟩

/-- Witness of C11 amended on the store of scenario B extended by the orphan
`A`, whose parent `X` is missing: `Delete` of `X` is refused, `Delete` of the
unknown `Z` succeeds, and nothing changes. -/
theorem Delete_missing_node_witness :
    memBll.Delete "X".toList (scenarioB ++ [nodeOrphan])
      = (.error .ErrMenuNotAllowDelete, scenarioB ++ [nodeOrphan]) ∧
    memBll.Delete "Z".toList (scenarioB ++ [nodeOrphan])
      = (.ok (), scenarioB ++ [nodeOrphan]) :=
  ⟨(Delete_missing_node (scenarioB ++ [nodeOrphan]) "X".toList (by decide)).1
      ⟨nodeOrphan, by decide, by decide⟩,
   (Delete_missing_node (scenarioB ++ [nodeOrphan]) "Z".toList (by decide)).2.1 (by decide)⟩

/-! ## C12: Get -/

/-- C12, as stated, fails in one direction of its equivalence: on a store whose
lookup itself fails with the error `ErrNotFound`, `Get` returns `ErrNotFound`
although the lookup did not succeed with no record. -/
theorem Get_not_found_counterexample :
    (NewMenu model.rollbackTrans notFoundMenu).Get "R".toList [] scenarioB
      = (.error .ErrNotFound, scenarioB) ∧
    (notFoundMenu.Get "R".toList [] scenarioB).1 ≠ .ok none := by
  decide

/-- C12, amended: for every store, `Get` returns the record the lookup returns,
unchanged; it returns the error of a failed lookup unchanged; it returns
`ErrNotFound` when the lookup succeeds with no record; hence it returns
`ErrNotFound` if and only if the lookup succeeds with no record or the lookup
itself fails with `ErrNotFound`.  The state after `Get` is the state the
lookup left: `Get` makes no other call, and on the in-memory store the rows
are unchanged. -/
theorem Get_pass_through {σ : Type} (a : Menu σ) (recordID : Str)
    (opts : List schema.MenuQueryOptions) (s : σ) :
    (∀ item s1, a.MenuModel.Get recordID opts s = (.ok (some item), s1) →
      a.Get recordID opts s = (.ok item, s1)) ∧
    (∀ err s1, a.MenuModel.Get recordID opts s = (.error err, s1) →
      a.Get recordID opts s = (.error err, s1)) ∧
    (∀ s1, a.MenuModel.Get recordID opts s = (.ok none, s1) →
      a.Get recordID opts s = (.error .ErrNotFound, s1)) ∧
    ((a.Get recordID opts s).1 = .error .ErrNotFound ↔
      ((a.MenuModel.Get recordID opts s).1 = .ok none ∨
       (a.MenuModel.Get recordID opts s).1 = .error .ErrNotFound)) ∧
    (a.Get recordID opts s).2 = (a.MenuModel.Get recordID opts s).2 ∧
    (∀ rows : List schema.Menu, (memBll.Get recordID opts rows).2 = rows) := by
  refine ⟨?_, ?_, ?_, ?_, ?_, ?_⟩
  · intro item s1 h; simp only [Menu.Get, h]
  · intro err s1 h; simp only [Menu.Get, h]
  · intro s1 h; simp only [Menu.Get, h]
  · unfold Menu.Get
    generalize a.MenuModel.Get recordID opts s = q
    obtain ⟨res, s1⟩ := q
    cases res with
    | error e => simp
    | ok found => cases found <;> simp
  · unfold Menu.Get
    generalize a.MenuModel.Get recordID opts s = q
    obtain ⟨res, s1⟩ := q
    cases res with
    | error e => rfl
    | ok found => cases found <;> rfl
  · intro rows
    simp only [Menu.Get, memBll_Get_eq]
    cases rows.find? (fun r => decide (r.RecordID = recordID)) <;> rfl

/-- Witness of C12 amended: on the store of scenario B `Get` of `C1` returns the
record `C1`, and `Get` of the unknown `Z` returns `ErrNotFound`. -/
theorem Get_pass_through_witness :
    memBll.Get "C1".toList [] scenarioB = (.ok nodeC1, scenarioB) ∧
    memBll.Get "Z".toList [] scenarioB = (.error .ErrNotFound, scenarioB) :=
  ⟨(Get_pass_through memBll "C1".toList [] scenarioB).1 nodeC1 scenarioB (by decide),
   (Get_pass_through memBll "Z".toList [] scenarioB).2.2.1 scenarioB (by decide)⟩

/-! ## C14: order of the descendant rewrite -/

theorem memBll_rewrite_foldl (opath npath : Str) :
    ∀ (ds : List schema.Menu) (rows : List schema.Menu),
      (∀ d ∈ ds, opath.length ≤ d.ParentPath.length) →
      Menu.Update.rewrite memBll opath npath ds rows
        = (.ok (), ds.foldl (rewriteRow opath npath) rows) := by
  intro ds
  induction ds with
  | nil => intro rows _; rfl
  | cons d ds ih =>
    intro rows hds
    have hlen := hds d (List.mem_cons_self _ _)
    simp only [Menu.Update.rewrite, hlen, if_true, memBll_UpdateParentPath_eq, List.foldl_cons]
    exact ih _ (fun x hx => hds x (List.mem_cons_of_mem _ hx))

theorem rewriteRow_comm (opath npath : Str) (rows : List schema.Menu) (x y : schema.Menu)
    (h : x.RecordID ≠ y.RecordID) :
    rewriteRow opath npath (rewriteRow opath npath rows x) y
      = rewriteRow opath npath (rewriteRow opath npath rows y) x := by
  simp only [rewriteRow, List.map_map]
  apply List.map_congr_left
  intro r _
  simp only [Function.comp]
  by_cases hx : r.RecordID = x.RecordID
  · have hy : ¬ r.RecordID = y.RecordID := fun hy => h (hx.symm.trans hy)
    simp [hx, hy, h]
  · by_cases hy : r.RecordID = y.RecordID
    · have hyx : ¬ y.RecordID = x.RecordID := fun e => h e.symm
      simp [hx, hy, hyx]
    · simp [hx, hy]

/-- C14: on every store, for two orderings of the same list of matched
descendants (each path starts with `opath`) with pairwise distinct `RecordID`s,
the rewrite loop of `Update` succeeds on both and reaches the same store. -/
theorem rewrite_order_independent (opath npath : Str) (rows : List schema.Menu)
    (ds₁ ds₂ : List schema.Menu) (hperm : ds₁.Perm ds₂)
    (hnodup : (ds₁.map (fun d => d.RecordID)).Nodup)
    (hmatch : ∀ d ∈ ds₁, opath <+: d.ParentPath) :
    Menu.Update.rewrite memBll opath npath ds₁ rows
      = Menu.Update.rewrite memBll opath npath ds₂ rows ∧
    (Menu.Update.rewrite memBll opath npath ds₁ rows).1 = .ok () := by
  have h1 : ∀ d ∈ ds₁, opath.length ≤ d.ParentPath.length := fun d hd => (hmatch d hd).length_le
  have h2 : ∀ d ∈ ds₂, opath.length ≤ d.ParentPath.length :=
    fun d hd => h1 d (hperm.mem_iff.mpr hd)
  rw [memBll_rewrite_foldl opath npath ds₁ rows h1, memBll_rewrite_foldl opath npath ds₂ rows h2]
  refine ⟨?_, rfl⟩
  congr 1
  apply List.Perm.foldl_eq' hperm
  intro x hx y hy z
  by_cases hxy : x = y
  · rw [hxy]
  · apply rewriteRow_comm
    intro hid
    exact hxy (List.inj_on_of_nodup_map hnodup hx hy hid)

/-- Witness of C14: rewriting `G` and `H` (descendants of `C1`, old prefix
`R/C1`, new prefix `S/C1`) in either order gives the same store. -/
theorem rewrite_order_independent_witness :
    (Menu.Update.rewrite memBll "R/C1".toList "S/C1".toList [nodeG, nodeH] (scenarioS ++ [nodeH])
      = Menu.Update.rewrite memBll "R/C1".toList "S/C1".toList [nodeH, nodeG]
          (scenarioS ++ [nodeH]) ∧
    (Menu.Update.rewrite memBll "R/C1".toList "S/C1".toList [nodeG, nodeH]
      (scenarioS ++ [nodeH])).1 = .ok ()) ∧
    Menu.Update.rewrite memBll "R/C1".toList "S/C1".toList [nodeH, nodeG] (scenarioS ++ [nodeH])
      = (.ok (), [nodeR, nodeS, nodeC1, { nodeG with ParentPath := "S/C1".toList },
          { nodeH with ParentPath := "S/C1/G".toList }]) :=
  ⟨rewrite_order_independent "R/C1".toList "S/C1".toList (scenarioS ++ [nodeH])
      [nodeG, nodeH] [nodeH, nodeG] (List.Perm.swap nodeH nodeG []) (by decide) (by decide),
   by decide⟩

/-! ## C15: Update that keeps the parent -/

/-- C15: when `item.ParentID` equals the `ParentID` of the stored node and
differs from the id, then for every store and every transaction provider the
unit of work of `Update` is exactly one call, the store update under the id
with the item carrying the stored `ParentPath` (no parent lookup, no prefix
query, no `UpdateParentPath`).  On the in-memory store `Update` succeeds, the
rows of the id hold the item with the stored `ParentPath`, whatever
`ParentPath` the caller supplied, and all other rows are unchanged. -/
theorem Update_same_parent (recordID : Str) (item oldItem : schema.Menu)
    (hne : item.ParentID ≠ recordID) (hsame : item.ParentID = oldItem.ParentID) :
    (∀ (σ : Type) (a : Menu σ) (s s1 : σ),
      a.MenuModel.Get recordID [] s = (.ok (some oldItem), s1) →
      (∀ s', Menu.Update.work a recordID { item with ParentPath := oldItem.ParentPath } oldItem s'
        = a.MenuModel.Update recordID { item with ParentPath := oldItem.ParentPath } s') ∧
      a.Update recordID item s =
        match ExecTrans a.TransModel
          (a.MenuModel.Update recordID { item with ParentPath := oldItem.ParentPath }) s1 with
        | (.error err, s2) => (.error err, s2)
        | (.ok _, s2) => a.getUpdate recordID s2) ∧
    (∀ rows : List schema.Menu,
      memBll.MenuModel.Get recordID [] rows = (.ok (some oldItem), rows) →
      ∀ supplied : Str,
        memBll.Update recordID { item with ParentPath := supplied } rows
          = (.ok { item with ParentPath := oldItem.ParentPath, RecordID := recordID },
              rows.map (fun r => if r.RecordID = recordID
                then { item with ParentPath := oldItem.ParentPath, RecordID := recordID }
                else r))) := by
  have hne' : ¬ recordID = item.ParentID := fun h => hne h.symm
  constructor
  · intro σ a s s1 hget
    have hwork : ∀ s', Menu.Update.work a recordID
        { item with ParentPath := oldItem.ParentPath } oldItem s'
        = a.MenuModel.Update recordID { item with ParentPath := oldItem.ParentPath } s' := by
      intro s'
      simp only [Menu.Update.work, hsame, ne_eq, not_true_eq_false, if_false]
    refine ⟨hwork, ?_⟩
    have hfun : Menu.Update.work a recordID { item with ParentPath := oldItem.ParentPath } oldItem
        = a.MenuModel.Update recordID { item with ParentPath := oldItem.ParentPath } :=
      funext hwork
    simp only [Menu.Update, hne', if_false, hget, hfun]
  · intro rows hget supplied
    exact memBll_Update_same_parent rows recordID { item with ParentPath := supplied } oldItem
      hne' (find_of_Get rows recordID oldItem hget) hsame

/-- Witness of C15: renaming `C1` on the store of scenario B with a misleading
`ParentPath` supplied by the caller. -/
theorem Update_same_parent_witness :
    memBll.Update "C1".toList
        { ({ nodeC1 with Payload := "renamed".toList } : schema.Menu) with
            ParentPath := "zz".toList } scenarioB
      = (.ok { ({ nodeC1 with Payload := "renamed".toList } : schema.Menu) with
                ParentPath := nodeC1.ParentPath, RecordID := "C1".toList },
          scenarioB.map (fun r => if r.RecordID = "C1".toList
            then { ({ nodeC1 with Payload := "renamed".toList } : schema.Menu) with
                    ParentPath := nodeC1.ParentPath, RecordID := "C1".toList }
            else r)) ∧
    scenarioB.map (fun r => if r.RecordID = "C1".toList
        then { ({ nodeC1 with Payload := "renamed".toList } : schema.Menu) with
                ParentPath := nodeC1.ParentPath, RecordID := "C1".toList }
        else r)
      = [nodeR, nodeR2, { nodeC1 with Payload := "renamed".toList }, nodeG] :=
  ⟨(Update_same_parent "C1".toList { nodeC1 with Payload := "renamed".toList } nodeC1
      (by decide) rfl).2 scenarioB (by decide) "zz".toList,
   by decide⟩

/-! ## C16: Create and the generated identifier -/

/-- C16: on every store, a successful `Create` appends exactly one record,
whose `RecordID` is the generated identifier whatever `RecordID` the caller
supplied, and keeps every record present before in place; when no record had
the generated identifier before, the record returned is the appended one. -/
theorem Create_assigns_uuid (rows : List schema.Menu) (uuid : Str)
    (item stored : schema.Menu) (rows' : List schema.Menu)
    (hok : memBll.Create uuid item rows = (.ok stored, rows')) :
    (∃ created : schema.Menu, rows' = rows ++ [created] ∧ created.RecordID = uuid ∧
      created.ParentID = item.ParentID ∧ created.Payload = item.Payload ∧
      ((∀ r ∈ rows, r.RecordID ≠ uuid) → stored = created)) ∧
    rows'.length = rows.length + 1 ∧
    (∀ r ∈ rows, r ∈ rows') ∧
    (∀ supplied : Str,
      memBll.Create uuid { item with RecordID := supplied } rows = (.ok stored, rows')) := by
  cases hd : derivedPath rows item.ParentID with
  | none =>
    rw [memBll_Create_of_no_parent rows uuid item hd] at hok
    simp at hok
  | some ppath =>
    have hpp := (getParentPath_ok_iff rows _ _).mpr hd
    have hform : ∀ it : schema.Menu, it.ParentID = item.ParentID → it.Payload = item.Payload →
        memBll.Create uuid it rows
          = memBll.getUpdate uuid
              (rows ++ [{ item with ParentPath := ppath, RecordID := uuid }]) := by
      intro it h1 h2
      simp only [Menu.Create, h1, h2, hpp, memBll_Create_eq]
    have hok' := hok
    rw [hform item rfl rfl, memBll_getUpdate] at hok'
    have hrows : rows ++ [{ item with ParentPath := ppath, RecordID := uuid }] = rows' := by
      cases hf : (rows ++ [({ item with ParentPath := ppath, RecordID := uuid } : schema.Menu)]).find?
          (fun r => decide (r.RecordID = uuid)) with
      | none => rw [hf] at hok'; simp at hok'
      | some q => rw [hf] at hok'; exact (Prod.mk.inj hok').2
    refine ⟨⟨_, hrows.symm, rfl, rfl, rfl, ?_⟩, ?_, ?_, ?_⟩
    · intro hfresh
      rw [List.find?_append, find_none_of_missing rows uuid hfresh] at hok'
      simp at hok'
      exact hok'.1.symm
    · rw [← hrows]; simp
    · intro r hr; rw [← hrows]; exact List.mem_append_left _ hr
    · intro supplied
      rw [hform { item with RecordID := supplied } rfl rfl, ← hform item rfl rfl, hok]

/-- Witness of C16 (scenario A, last step): creating `G` under `C1` with the
`RecordID` `zz` supplied by the caller stores the record under the id `G`. -/
theorem Create_assigns_uuid_witness :
    (∃ created : schema.Menu, [nodeR, nodeC1, nodeG] = [nodeR, nodeC1] ++ [created] ∧
      created.RecordID = "G".toList ∧
      created.ParentID = (⟨"zz".toList, "C1".toList, [], "grandchild".toList⟩ : schema.Menu).ParentID ∧
      created.Payload = (⟨"zz".toList, "C1".toList, [], "grandchild".toList⟩ : schema.Menu).Payload ∧
      ((∀ r ∈ [nodeR, nodeC1], r.RecordID ≠ "G".toList) → nodeG = created)) ∧
    [nodeR, nodeC1, nodeG].length = [nodeR, nodeC1].length + 1 :=
  ⟨(Create_assigns_uuid [nodeR, nodeC1] "G".toList
      ⟨"zz".toList, "C1".toList, [], "grandchild".toList⟩ nodeG [nodeR, nodeC1, nodeG]
      (by decide)).1,
   (Create_assigns_uuid [nodeR, nodeC1] "G".toList
      ⟨"zz".toList, "C1".toList, [], "grandchild".toList⟩ nodeG [nodeR, nodeC1, nodeG]
      (by decide)).2.1⟩

/-! ## C18: the suffix slice of the rewrite loop -/

theorem stripPrefix_eq_drop (opath path : Str) :
    stripPrefix opath path = path.drop opath.length := by
  induction opath generalizing path with
  | nil => rfl
  | cons c opath ih =>
    cases path with
    | nil => rfl
    | cons x path => simp [stripPrefix, ih]

/-- C18: for every store, when every record handed to the rewrite loop has a
path starting with `opath` (the contract of the prefix query), `len(opath)` is
at most the length of each path, so the slice `ParentPath[len(opath):]` is in
range and the loop never takes its panic branch: it is the loop of the
specification, which persists for each record the path `npath` followed by the
path without its first `len(opath)` elements; what is cut off is `opath`, and
a direct child (path equal to `opath`) receives exactly `npath`. -/
theorem rewrite_slice_in_range {σ : Type} (a : Menu σ) (opath npath : Str)
    (ds : List schema.Menu) (s : σ) (hmatch : ∀ d ∈ ds, opath <+: d.ParentPath) :
    (∀ d ∈ ds, opath.length ≤ d.ParentPath.length ∧
      opath ++ d.ParentPath.drop opath.length = d.ParentPath ∧
      stripPrefix opath d.ParentPath = d.ParentPath.drop opath.length ∧
      (d.ParentPath = opath → npath ++ d.ParentPath.drop opath.length = npath)) ∧
    Menu.Update.rewrite a opath npath ds s = rewriteBySpec a opath npath ds s := by
  constructor
  · intro d hd
    refine ⟨(hmatch d hd).length_le, List.prefix_iff_eq_append.mp (hmatch d hd),
      stripPrefix_eq_drop _ _, ?_⟩
    intro h
    rw [h, List.drop_length, List.append_nil]
  · induction ds generalizing s with
    | nil => rfl
    | cons d ds ih =>
      have hlen := (hmatch d (List.mem_cons_self _ _)).length_le
      simp only [Menu.Update.rewrite, hlen, if_true, rewriteBySpec, stripPrefix_eq_drop]
      cases hq : a.MenuModel.UpdateParentPath d.RecordID
          (npath ++ List.drop opath.length d.ParentPath) s with
      | mk res s1 =>
        cases res with
        | error e => rfl
        | ok u => exact ih s1 (fun x hx => hmatch x (List.mem_cons_of_mem _ hx))

/-- Witness of C18: the loop over `G` (a direct child of `C1`, path `R/C1`) and
`H` (path `R/C1/G`) with old prefix `R/C1` and new prefix `S/C1`; and a record
whose path is shorter than `opath` makes the loop of the code panic. -/
theorem rewrite_slice_in_range_witness :
    ((∀ d ∈ [nodeG, nodeH], "R/C1".toList.length ≤ d.ParentPath.length ∧
        "R/C1".toList ++ d.ParentPath.drop "R/C1".toList.length = d.ParentPath ∧
        stripPrefix "R/C1".toList d.ParentPath = d.ParentPath.drop "R/C1".toList.length ∧
        (d.ParentPath = "R/C1".toList →
          "S/C1".toList ++ d.ParentPath.drop "R/C1".toList.length = "S/C1".toList)) ∧
      Menu.Update.rewrite memBll "R/C1".toList "S/C1".toList [nodeG, nodeH]
          (scenarioS ++ [nodeH])
        = rewriteBySpec memBll "R/C1".toList "S/C1".toList [nodeG, nodeH]
          (scenarioS ++ [nodeH])) ∧
    rewriteBySpec memBll "R/C1".toList "S/C1".toList [nodeG, nodeH] (scenarioS ++ [nodeH])
      = (.ok (), [nodeR, nodeS, nodeC1, { nodeG with ParentPath := "S/C1".toList },
          { nodeH with ParentPath := "S/C1/G".toList }]) ∧
    Menu.Update.rewrite memBll "R/C1".toList "S/C1".toList [nodeC1] scenarioS
      = (.error .panic, scenarioS) :=
  ⟨rewrite_slice_in_range memBll "R/C1".toList "S/C1".toList [nodeG, nodeH]
      (scenarioS ++ [nodeH]) (by decide),
   by decide, by decide⟩

/-! ## Descendants and path prefixes -/

theorem parent_of_I1 (rows : List schema.Menu) (h1 : I1 rows) (r : schema.Menu) (hr : r ∈ rows)
    (hd : r.ParentID ≠ []) :
    ∃ P, rows.find? (fun x => decide (x.RecordID = r.ParentID)) = some P ∧ P ∈ rows ∧
      P.RecordID = r.ParentID ∧ r.ParentPath = fullPath P.ParentPath P.RecordID :=
  derivedPath_some rows _ _ hd (h1 r hr)

theorem root_of_I1 (rows : List schema.Menu) (h1 : I1 rows) (r : schema.Menu) (hr : r ∈ rows)
    (hd : r.ParentID = []) : r.ParentPath = [] := by
  have := h1 r hr
  simpa [derivedPath, hd, eq_comm] using this

theorem prefix_is_ancestor (rows : List schema.Menu) (h1 : I1 rows) (hw : WellFormed rows) :
    ∀ (n : Nat), ∀ U ∈ rows, U.ParentPath.length ≤ n → ∀ X ∈ rows, ∀ p : Str,
      fullPath p X.RecordID <+: U.ParentPath →
      X.ParentPath = p ∧ Descendant rows X.RecordID U := by
  obtain ⟨hu, hc, hnp⟩ := hw
  intro n
  induction n with
  | zero =>
    intro U _ hlen X hX p hpre
    have hnil : U.ParentPath = [] := List.length_eq_zero.mp (Nat.le_zero.mp hlen)
    rw [hnil] at hpre
    exact absurd (List.prefix_nil.mp hpre) (fullPath_ne_nil _ _ (hc X hX).1)
  | succ n ih =>
    intro U hU hlen X hX p hpre
    by_cases hd0 : U.ParentID = []
    · rw [root_of_I1 rows h1 U hU hd0] at hpre
      exact absurd (List.prefix_nil.mp hpre) (fullPath_ne_nil _ _ (hc X hX).1)
    · obtain ⟨P, -, hPmem, hPid, hpath⟩ := parent_of_I1 rows h1 U hU hd0
      rw [hpath] at hpre
      rcases prefix_fullPath_cases p P.ParentPath X.RecordID P.RecordID (hc X hX).2
          (hc P hPmem).2 (hnp X hX P hPmem) hpre with hpre' | ⟨hp, hid⟩
      · have hlt : P.ParentPath.length < U.ParentPath.length := by
          rw [hpath]; exact length_fullPath_gt _ _ (hc P hPmem).1
        obtain ⟨hXp, hdesc⟩ := ih P hPmem (by omega) X hX p hpre'
        exact ⟨hXp, Descendant.step U P hU hPmem hPid.symm hdesc⟩
      · have hXP : X = P := eq_of_RecordID_eq rows hu X P hX hPmem hid
        subst hXP
        exact ⟨hp.symm, Descendant.child U hU hPid.symm⟩

theorem descendant_mem (rows : List schema.Menu) (recordID : Str) (r : schema.Menu)
    (h : Descendant rows recordID r) : r ∈ rows := by
  cases h with
  | child _ hr _ => exact hr
  | step _ _ hr _ _ _ => exact hr

theorem descendant_starts (rows : List schema.Menu) (h1 : I1 rows) (hu : UniqueIDs rows)
    (hc : CleanIDs rows) (X : schema.Menu) (hX : X ∈ rows) (U : schema.Menu)
    (h : Descendant rows X.RecordID U) :
    fullPath X.ParentPath X.RecordID <+: U.ParentPath := by
  induction h with
  | child r hr hpar =>
    have hd0 : r.ParentID ≠ [] := by rw [hpar]; exact (hc X hX).1
    obtain ⟨P, -, hPmem, hPid, hpath⟩ := parent_of_I1 rows h1 r hr hd0
    have hPX : P = X := eq_of_RecordID_eq rows hu P X hPmem hX (hPid.trans hpar)
    rw [hpath, hPX]
  | step r p hr hp hpar _ ih =>
    have hd0 : r.ParentID ≠ [] := by rw [hpar]; exact (hc p hp).1
    obtain ⟨P, -, hPmem, hPid, hpath⟩ := parent_of_I1 rows h1 r hr hd0
    have hPp : P = p := eq_of_RecordID_eq rows hu P p hPmem hp (hPid.trans hpar)
    rw [hpath, hPp]
    exact ih.trans (prefix_fullPath _ _)

theorem descendant_iff_starts (rows : List schema.Menu) (h1 : I1 rows) (hw : WellFormed rows)
    (X : schema.Menu) (hX : X ∈ rows) (U : schema.Menu) (hU : U ∈ rows) :
    Descendant rows X.RecordID U ↔ fullPath X.ParentPath X.RecordID <+: U.ParentPath :=
  ⟨descendant_starts rows h1 hw.1 hw.2.1 X hX U,
   fun h => (prefix_is_ancestor rows h1 hw _ U hU (Nat.le_refl _) X hX _ h).2⟩

theorem NoPrefixIDs_map (rows : List schema.Menu) (f : schema.Menu → schema.Menu)
    (hf : ∀ r, (f r).RecordID = r.RecordID) (hn : NoPrefixIDs rows) :
    NoPrefixIDs (rows.map f) := by
  intro a ha b hb
  rw [List.mem_map] at ha hb
  obtain ⟨r, hr, rfl⟩ := ha
  obtain ⟨r', hr', rfl⟩ := hb
  rw [hf r, hf r']
  exact hn r hr r' hr'

theorem WellFormed_map (rows : List schema.Menu) (f : schema.Menu → schema.Menu)
    (hf : ∀ r, (f r).RecordID = r.RecordID) (hw : WellFormed rows) : WellFormed (rows.map f) :=
  ⟨UniqueIDs_map rows f hf hw.1, CleanIDs_map rows f hf hw.2.1, NoPrefixIDs_map rows f hf hw.2.2⟩

theorem fullPath_inj_id (a b i j : Str) (hi : '/' ∉ i) (hj : '/' ∉ j)
    (h : fullPath a i = fullPath b j) : a = b ∧ i = j := by
  by_cases ha : a = []
  · by_cases hb : b = []
    · simp only [fullPath, ha, hb, if_true] at h
      exact ⟨ha.trans hb.symm, h⟩
    · simp only [fullPath, ha, hb, if_true, if_false] at h
      exact absurd (by rw [h]; simp) hi
  · by_cases hb : b = []
    · simp only [fullPath, ha, hb, if_true, if_false] at h
      exact absurd (by rw [← h]; simp) hj
    · simp only [fullPath, ha, hb, if_false] at h
      exact sep_split_unique a b i j hi hj h

theorem derivedPath_inj (rows : List schema.Menu) (hc : CleanIDs rows) (a b p : Str)
    (ha : derivedPath rows a = some p) (hb : derivedPath rows b = some p) : a = b := by
  by_cases ha0 : a = []
  · by_cases hb0 : b = []
    · rw [ha0, hb0]
    · obtain ⟨Q, -, hQ, -, hq⟩ := derivedPath_some rows b p hb0 hb
      have : p = [] := by simpa [derivedPath, ha0, eq_comm] using ha
      exact absurd (hq ▸ this) (fullPath_ne_nil _ _ (hc Q hQ).1)
  · obtain ⟨P, -, hP, hPid, hp⟩ := derivedPath_some rows a p ha0 ha
    by_cases hb0 : b = []
    · have : p = [] := by simpa [derivedPath, hb0, eq_comm] using hb
      exact absurd (hp ▸ this) (fullPath_ne_nil _ _ (hc P hP).1)
    · obtain ⟨Q, -, hQ, hQid, hq⟩ := derivedPath_some rows b p hb0 hb
      have := (fullPath_inj_id _ _ _ _ (hc P hP).2 (hc Q hQ).2 (hp.symm.trans hq)).2
      rw [← hPid, ← hQid, this]

theorem find_of_mem_unique (rows : List schema.Menu) (hu : UniqueIDs rows) (r : schema.Menu)
    (hr : r ∈ rows) : rows.find? (fun x => decide (x.RecordID = r.RecordID)) = some r := by
  obtain ⟨p, hp, hpmem, hpid⟩ := find_some_of_present rows r.RecordID ⟨r, hr, rfl⟩
  rw [hp, eq_of_RecordID_eq rows hu p r hpmem hr hpid]

theorem not_prefix_of_shorter (a b : Str) (h : b.length < a.length) : ¬ a <+: b :=
  fun hp => absurd hp.length_le (by omega)

/-! ## C13: the rows a reparenting Update rewrites -/

theorem reparent_rows (rows : List schema.Menu) (hu : UniqueIDs rows) (recordID : Str)
    (item oldItem stored : schema.Menu) (rows' : List schema.Menu)
    (hget : rows.find? (fun r => decide (r.RecordID = recordID)) = some oldItem)
    (hre : item.ParentID ≠ oldItem.ParentID)
    (hok : memBll.Update recordID item rows = (.ok stored, rows')) :
    ∃ ppath, derivedPath rows item.ParentID = some ppath ∧ recordID ≠ item.ParentID ∧
      stored = { item with ParentPath := ppath, RecordID := recordID } ∧
      rows' = rows.map (reparentRow recordID { item with ParentPath := ppath }
        (fullPath oldItem.ParentPath recordID) (fullPath ppath item.RecordID)) := by
  by_cases hne : recordID = item.ParentID
  · rw [memBll_Update_self rows recordID item hne] at hok
    simp at hok
  · cases hd : derivedPath rows item.ParentID with
    | none =>
      rw [memBll_Update_reparent_missing rows recordID item oldItem hne hget hre hd] at hok
      simp at hok
    | some ppath =>
      rw [memBll_Update_reparent rows hu recordID item oldItem ppath hne hget hre
        ((getParentPath_ok_iff rows _ _).mpr hd)] at hok
      have h := Prod.mk.inj hok
      exact ⟨ppath, rfl, hne, (Except.ok.inj h.1).symm, h.2.symm⟩

theorem append_ne_append_right (a b t : Str) (h : a ≠ b) : a ++ t ≠ b ++ t :=
  fun e => h (List.append_cancel_right e)

theorem reparent_changes_path (rows : List schema.Menu) (h1 : I1 rows) (hc : CleanIDs rows)
    (recordID ppath : Str) (item oldItem : schema.Menu) (hold : oldItem ∈ rows)
    (hoid : oldItem.RecordID = recordID)
    (hre : item.ParentID ≠ oldItem.ParentID)
    (hpp : derivedPath rows item.ParentID = some ppath) :
    fullPath ppath recordID ≠ fullPath oldItem.ParentPath recordID := by
  intro h
  have hsep : '/' ∉ recordID := hoid ▸ (hc oldItem hold).2
  have hpath : ppath = oldItem.ParentPath := (fullPath_inj_id _ _ _ _ hsep hsep h).1
  exact hre (derivedPath_inj rows hc _ _ ppath hpp (hpath ▸ h1 oldItem hold))

/-- C13, as stated, fails: the store with roots `C1`, `C10`, `S` and the child
`X` of `C10` satisfies I1; moving `C1` under `S` succeeds and rewrites the path
of `X` from `C10` to `S/C10`, although `X` is not a descendant of `C1`: the
prefix query for `C1` matches the path `C10`. -/
theorem frame_broken_by_prefix_id :
    I1 scenarioPrefix ∧
    memBll.Update "C1".toList ⟨"C1".toList, "S".toList, [], "one".toList⟩ scenarioPrefix
      = (.ok ⟨"C1".toList, "S".toList, "S".toList, "one".toList⟩,
          [⟨"C1".toList, "S".toList, "S".toList, "one".toList⟩,
           ⟨"C10".toList, [], [], "ten".toList⟩,
           ⟨"X".toList, "C10".toList, "S/C10".toList, "x".toList⟩, nodeS]) ∧
    ¬ Descendant scenarioPrefix "C1".toList ⟨"X".toList, "C10".toList, "C10".toList, "x".toList⟩ := by
  refine ⟨by decide, by decide, ?_⟩
  intro h
  cases h with
  | child _ _ hpar => exact absurd hpar (by decide)
  | step _ p _ hp hpar hdesc =>
    simp only [scenarioPrefix, List.mem_cons, List.mem_singleton, List.not_mem_nil,
      or_false] at hp
    rcases hp with rfl | rfl | rfl | rfl
    · exact absurd hpar (by decide)
    · cases hdesc with
      | child _ _ hpar' => exact absurd hpar' (by decide)
      | step _ q _ hq hpar' _ =>
        simp only [scenarioPrefix, List.mem_cons, List.mem_singleton, List.not_mem_nil,
          or_false] at hq
        rcases hq with rfl | rfl | rfl | rfl <;> exact absurd hpar' (by decide)
    · exact absurd hpar (by decide)
    · exact absurd hpar (by decide)

/-- C13, amended: on a store that satisfies I1 and whose identifiers are
unique, non-empty, free of `/` and prefix-free, after a successful `Update`
that changes the `ParentID` of the node `recordID`, with `item.RecordID` equal
to `recordID`, the store holds the same ids in the same order, and for every
other node: the store returns a record with the same `RecordID`, `ParentID` and
payload; its `ParentPath` differs from the one before the call if and only if
the node was a descendant of `recordID` before the call; and a node that was
not a descendant is returned unchanged. -/
theorem reparent_frame (rows : List schema.Menu) (h1 : I1 rows) (hw : WellFormed rows)
    (recordID : Str) (item oldItem stored : schema.Menu) (rows' : List schema.Menu)
    (hget : memBll.MenuModel.Get recordID [] rows = (.ok (some oldItem), rows))
    (hre : item.ParentID ≠ oldItem.ParentID) (hself : item.RecordID = recordID)
    (hok : memBll.Update recordID item rows = (.ok stored, rows')) :
    rows'.map (fun r => r.RecordID) = rows.map (fun r => r.RecordID) ∧
    ∀ r ∈ rows, r.RecordID ≠ recordID →
      ∃ r', memBll.MenuModel.Get r.RecordID [] rows' = (.ok (some r'), rows') ∧
        r'.RecordID = r.RecordID ∧ r'.ParentID = r.ParentID ∧ r'.Payload = r.Payload ∧
        (r'.ParentPath ≠ r.ParentPath ↔ Descendant rows recordID r) ∧
        (¬ Descendant rows recordID r → r' = r) := by
  have hfind := find_of_Get rows recordID oldItem hget
  have hold : oldItem ∈ rows := List.mem_of_find?_eq_some hfind
  have hoid : oldItem.RecordID = recordID := by simpa using List.find?_some hfind
  obtain ⟨ppath, hpp, -, -, hrows⟩ :=
    reparent_rows rows hw.1 recordID item oldItem stored rows' hfind hre hok
  have hchg := reparent_changes_path rows h1 hw.2.1 recordID ppath item oldItem hold hoid
    hre hpp
  rw [hself] at hrows
  subst hrows
  refine ⟨map_RecordID_of_preserving rows _ (reparentRow_RecordID _ _ _ _), ?_⟩
  intro r hr hne
  have hdesc : Descendant rows recordID r ↔
      fullPath oldItem.ParentPath recordID <+: r.ParentPath := by
    have := descendant_iff_starts rows h1 hw oldItem hold r hr
    rwa [hoid] at this
  refine ⟨reparentRow recordID { item with ParentPath := ppath }
    (fullPath oldItem.ParentPath recordID) (fullPath ppath recordID) r, ?_, ?_⟩
  · rw [memBll_Get_eq, find_map_of_RecordID _ _ (reparentRow_RecordID _ _ _ _),
      find_of_mem_unique rows hw.1 r hr]
    rfl
  · by_cases hB : fullPath oldItem.ParentPath recordID <+: r.ParentPath
    · have hrow : reparentRow recordID { item with ParentPath := ppath }
          (fullPath oldItem.ParentPath recordID) (fullPath ppath recordID) r
          = rewritten (fullPath oldItem.ParentPath recordID).length (fullPath ppath recordID) r := by
        simp [reparentRow, hne, hB]
      rw [hrow]
      refine ⟨rfl, rfl, rfl, ?_, fun hnd => absurd (hdesc.mpr hB) hnd⟩
      constructor
      · intro _; exact hdesc.mpr hB
      · intro _
        have hsplit := List.prefix_iff_eq_append.mp hB
        show fullPath ppath recordID
            ++ r.ParentPath.drop (fullPath oldItem.ParentPath recordID).length ≠ r.ParentPath
        intro e
        rw [← hsplit] at e
        simp only [List.drop_left] at e
        exact append_ne_append_right _ _ _ hchg e
    · have hrow : reparentRow recordID { item with ParentPath := ppath }
          (fullPath oldItem.ParentPath recordID) (fullPath ppath recordID) r = r := by
        simp [reparentRow, hne, hB]
      rw [hrow]
      refine ⟨rfl, rfl, rfl, ?_, fun _ => rfl⟩
      constructor
      · intro h; exact absurd rfl h
      · intro h; exact absurd (hdesc.mp h) hB

/-- Witness of C13 amended: moving `C1` with its child `G` from `R` to `S`; the
path of `G` changes and `G` is a descendant of `C1`. -/
theorem reparent_frame_witness :
    ([nodeR, nodeS, { nodeC1 with ParentID := "S".toList, ParentPath := "S".toList },
        { nodeG with ParentPath := "S/C1".toList }].map (fun r => r.RecordID)
      = scenarioS.map (fun r => r.RecordID) ∧
    ∀ r ∈ scenarioS, r.RecordID ≠ "C1".toList →
      ∃ r', memBll.MenuModel.Get r.RecordID []
            [nodeR, nodeS, { nodeC1 with ParentID := "S".toList, ParentPath := "S".toList },
              { nodeG with ParentPath := "S/C1".toList }]
          = (.ok (some r'),
            [nodeR, nodeS, { nodeC1 with ParentID := "S".toList, ParentPath := "S".toList },
              { nodeG with ParentPath := "S/C1".toList }]) ∧
        r'.RecordID = r.RecordID ∧ r'.ParentID = r.ParentID ∧ r'.Payload = r.Payload ∧
        (r'.ParentPath ≠ r.ParentPath ↔ Descendant scenarioS "C1".toList r) ∧
        (¬ Descendant scenarioS "C1".toList r → r' = r)) ∧
    Descendant scenarioS "C1".toList nodeG :=
  ⟨reparent_frame scenarioS (by decide) (by decide) "C1".toList
      { nodeC1 with ParentID := "S".toList } nodeC1
      { nodeC1 with ParentID := "S".toList, ParentPath := "S".toList } _
      (by decide) (by decide) rfl (by decide),
   Descendant.child nodeG (by decide) (by decide)⟩

/-! ## C17: reparenting under well-formed identifiers -/

theorem I3_of_I1 (rows : List schema.Menu) (h1 : I1 rows) (hu : UniqueIDs rows)
    (hc : CleanIDs rows) : I3 rows := by
  intro n hn d hd
  exact (descendant_starts rows h1 hu hc n hn d hd).trans (prefix_fullPath _ _)

theorem outside_of_not_descendant (rows : List schema.Menu) (h1 : I1 rows) (hw : WellFormed rows)
    (recordID : Str) (item oldItem : schema.Menu) (hold : oldItem ∈ rows)
    (hoid : oldItem.RecordID = recordID)
    (hparent : item.ParentID = [] ∨
      ∃ q ∈ rows, q.RecordID = item.ParentID ∧ ¬ Descendant rows recordID q) :
    ∀ q ∈ rows, q.RecordID = item.ParentID →
      ¬ fullPath oldItem.ParentPath recordID <+: q.ParentPath := by
  intro q hq hqid hpre
  rcases hparent with h0 | ⟨q0, hq0, hq0id, hnd⟩
  · exact (hw.2.1 q hq).1 (hqid.trans h0)
  · have hqq : q = q0 := eq_of_RecordID_eq rows hw.1 q q0 hq hq0 (hqid.trans hq0id.symm)
    subst hqq
    apply hnd
    have := (descendant_iff_starts rows h1 hw oldItem hold q hq).mpr (by rw [hoid]; exact hpre)
    rwa [hoid] at this

/-- C17: on a store (keyed by unique `RecordID`s) that satisfies I1 and whose
`RecordID`s are non-empty, free of `/` and prefix-free, a successful `Update`
with `item.RecordID` equal to the id, whose new `ParentID` is empty or names an
existing node that is neither the node itself nor one of its descendants,
reaches a store that satisfies I1 for every node and I3 for every node; in
particular the full path of every descendant of the moved node starts with the
new full path of the moved node, which is the record `Update` returns. -/
theorem reparent_preserves_I1_I3 (rows : List schema.Menu) (h1 : I1 rows)
    (hw : WellFormed rows) (recordID : Str) (item oldItem stored : schema.Menu)
    (rows' : List schema.Menu)
    (hget : memBll.MenuModel.Get recordID [] rows = (.ok (some oldItem), rows))
    (hself : item.RecordID = recordID)
    (hparent : item.ParentID = [] ∨
      ∃ q ∈ rows, q.RecordID = item.ParentID ∧ q.RecordID ≠ recordID ∧
        ¬ Descendant rows recordID q)
    (hok : memBll.Update recordID item rows = (.ok stored, rows')) :
    I1 rows' ∧ I3 rows' ∧
    (stored ∈ rows' ∧ stored.RecordID = recordID ∧ stored.ParentID = item.ParentID ∧
      ∀ d, Descendant rows' recordID d →
        fullPath stored.ParentPath recordID <+: fullPath d.ParentPath d.RecordID) := by
  have hfind := find_of_Get rows recordID oldItem hget
  have hold : oldItem ∈ rows := List.mem_of_find?_eq_some hfind
  have hoid : oldItem.RecordID = recordID := by simpa using List.find?_some hfind
  have hout := outside_of_not_descendant rows h1 hw recordID item oldItem hold hoid
    (hparent.imp id (fun ⟨q, hq, hqid, _, hnd⟩ => ⟨q, hq, hqid, hnd⟩))
  have h1' : I1 rows' :=
    I1_of_Update_ok rows h1 recordID item oldItem stored rows' hfind hok
      (Or.inr ⟨hw, hself, hout⟩)
  obtain ⟨f, hf, hrows⟩ := Update_ok_rows rows hw.1 recordID item stored rows' hok
  have hw' : WellFormed rows' := hrows ▸ WellFormed_map rows f hf hw
  have h3 : I3 rows' := I3_of_I1 rows' h1' hw'.1 hw'.2.1
  have hstored : rows'.find? (fun r => decide (r.RecordID = recordID)) = some stored := by
    have hupd : memBll.Update recordID item rows = (.ok stored, rows') := hok
    by_cases hne : recordID = item.ParentID
    · rw [memBll_Update_self rows recordID item hne] at hupd
      simp at hupd
    · by_cases hsame : item.ParentID = oldItem.ParentID
      · rw [memBll_Update_same_parent rows recordID item oldItem hne hfind hsame] at hupd
        have h := Prod.mk.inj hupd
        rw [← h.2, ← Except.ok.inj h.1,
          find_map_of_RecordID _ _ (by intro r; split <;> simp_all), hfind]
        simp [hoid]
      · obtain ⟨ppath, -, -, hst, hr'⟩ :=
          reparent_rows rows hw.1 recordID item oldItem stored rows' hfind hsame hok
        rw [hr', hst, find_map_of_RecordID _ _ (reparentRow_RecordID _ _ _ _), hfind]
        simp [reparentRow, hoid]
  have hsmem : stored ∈ rows' := List.mem_of_find?_eq_some hstored
  have hsid : stored.RecordID = recordID := by simpa using List.find?_some hstored
  have hspar : stored.ParentID = item.ParentID := by
    by_cases hne : recordID = item.ParentID
    · rw [memBll_Update_self rows recordID item hne] at hok
      simp at hok
    · by_cases hsame : item.ParentID = oldItem.ParentID
      · rw [memBll_Update_same_parent rows recordID item oldItem hne hfind hsame] at hok
        rw [← Except.ok.inj (Prod.mk.inj hok).1]
      · obtain ⟨ppath, -, -, hst, -⟩ :=
          reparent_rows rows hw.1 recordID item oldItem stored rows' hfind hsame hok
        rw [hst]
  refine ⟨h1', h3, hsmem, hsid, hspar, ?_⟩
  intro d hd
  have := h3 stored hsmem d (by rw [hsid]; exact hd)
  rwa [hsid] at this

theorem not_descendant_of_root (rows : List schema.Menu) (hc : CleanIDs rows)
    (recordID : Str) (hne : recordID ≠ []) (r : schema.Menu) (hroot : r.ParentID = []) :
    ¬ Descendant rows recordID r := by
  intro h
  cases h with
  | child _ _ hpar => exact hne (hpar.symm.trans hroot)
  | step _ p _ hp hpar _ => exact (hc p hp).1 (hpar.symm.trans hroot)

/-- Witness of C17: on the store `R`, `S`, `C1` (under `R`), `G` (under `C1`),
moving `C1` under the root `S`, which is not a descendant of `C1`. -/
theorem reparent_preserves_I1_I3_witness :
    I1 [nodeR, nodeS, { nodeC1 with ParentID := "S".toList, ParentPath := "S".toList },
        { nodeG with ParentPath := "S/C1".toList }] ∧
    I3 [nodeR, nodeS, { nodeC1 with ParentID := "S".toList, ParentPath := "S".toList },
        { nodeG with ParentPath := "S/C1".toList }] ∧
    (({ nodeC1 with ParentID := "S".toList, ParentPath := "S".toList } : schema.Menu) ∈
        [nodeR, nodeS, { nodeC1 with ParentID := "S".toList, ParentPath := "S".toList },
          { nodeG with ParentPath := "S/C1".toList }] ∧
      ({ nodeC1 with ParentID := "S".toList, ParentPath := "S".toList } : schema.Menu).RecordID
        = "C1".toList ∧
      ({ nodeC1 with ParentID := "S".toList, ParentPath := "S".toList } : schema.Menu).ParentID
        = ({ nodeC1 with ParentID := "S".toList } : schema.Menu).ParentID ∧
      ∀ d, Descendant
          [nodeR, nodeS, { nodeC1 with ParentID := "S".toList, ParentPath := "S".toList },
            { nodeG with ParentPath := "S/C1".toList }] "C1".toList d →
        fullPath
          ({ nodeC1 with ParentID := "S".toList, ParentPath := "S".toList } : schema.Menu).ParentPath
          "C1".toList <+: fullPath d.ParentPath d.RecordID) :=
  reparent_preserves_I1_I3 scenarioS (by decide) (by decide) "C1".toList
    { nodeC1 with ParentID := "S".toList } nodeC1
    { nodeC1 with ParentID := "S".toList, ParentPath := "S".toList } _
    (by decide) rfl
    (Or.inr ⟨nodeS, by decide, by decide, by decide,
      not_descendant_of_root scenarioS (by decide) "C1".toList (by decide) nodeS rfl⟩)
    (by decide)

/-! ## C19: moving a node away and back -/

theorem not_own_parent (rows : List schema.Menu) (h1 : I1 rows) (hu : UniqueIDs rows)
    (hc : CleanIDs rows) (r : schema.Menu) (hr : r ∈ rows) : r.ParentID ≠ r.RecordID := by
  intro h
  have hd0 : r.ParentID ≠ [] := by rw [h]; exact (hc r hr).1
  obtain ⟨P, -, hPmem, hPid, hpath⟩ := parent_of_I1 rows h1 r hr hd0
  have hPr : P = r := eq_of_RecordID_eq rows hu P r hPmem hr (hPid.trans h)
  subst hPr
  have := length_fullPath_gt P.ParentPath P.RecordID (hc P hPmem).1
  rw [← hpath] at this
  omega

theorem derivedPath_of_mem (rows : List schema.Menu) (hu : UniqueIDs rows) (hc : CleanIDs rows)
    (q : schema.Menu) (hq : q ∈ rows) :
    derivedPath rows q.RecordID = some (fullPath q.ParentPath q.RecordID) := by
  simp [derivedPath, (hc q hq).1, find_of_mem_unique rows hu q hq]

theorem parent_row_kept (rows : List schema.Menu) (h1 : I1 rows) (hw : WellFormed rows)
    (recordID : Str) (item oldItem : schema.Menu) (npath : Str) (hold : oldItem ∈ rows)
    (hoid : oldItem.RecordID = recordID) :
    derivedPath (rows.map (reparentRow recordID item (fullPath oldItem.ParentPath recordID) npath))
      oldItem.ParentID = some oldItem.ParentPath := by
  rw [derivedPath_map rows _ (reparentRow_RecordID _ _ _ _)]
  by_cases hA0 : oldItem.ParentID = []
  · simp [hA0, root_of_I1 rows h1 oldItem hold hA0]
  · obtain ⟨PA, hPA, hPAmem, hPAid, hpath⟩ := parent_of_I1 rows h1 oldItem hold hA0
    have hne : ¬ PA.RecordID = recordID := by
      rw [hPAid, ← hoid]
      exact not_own_parent rows h1 hw.1 hw.2.1 oldItem hold
    have hidne : recordID ≠ [] := hoid ▸ (hw.2.1 oldItem hold).1
    have hshort : ¬ fullPath oldItem.ParentPath recordID <+: PA.ParentPath := by
      apply not_prefix_of_shorter
      have a1 := length_fullPath_gt PA.ParentPath PA.RecordID (hw.2.1 PA hPAmem).1
      have a2 := length_fullPath_gt oldItem.ParentPath recordID hidne
      rw [← hpath] at a1
      omega
    have hrow : reparentRow recordID item (fullPath oldItem.ParentPath recordID) npath PA
        = PA := by
      simp [reparentRow, hne, hshort]
    simp only [hA0, if_false, hPA, Option.map_some', hrow]
    rw [hpath]

theorem move_back_rows (rows : List schema.Menu) (h1 : I1 rows) (hw : WellFormed rows)
    (recordID : Str) (oldItem bNode item₁ item₂ : schema.Menu)
    (hold : oldItem ∈ rows) (hoid : oldItem.RecordID = recordID)
    (hB : bNode ∈ rows) (hBA : bNode.RecordID ≠ oldItem.ParentID) :
    (rows.map (reparentRow recordID item₁ (fullPath oldItem.ParentPath recordID)
        (fullPath (fullPath bNode.ParentPath bNode.RecordID) recordID))).map
      (reparentRow recordID item₂
        (fullPath (fullPath bNode.ParentPath bNode.RecordID) recordID)
        (fullPath oldItem.ParentPath recordID))
    = rows.map (fun r => if r.RecordID = recordID
        then { item₂ with RecordID := recordID } else r) := by
  rw [List.map_map]
  apply List.map_congr_left
  intro r hr
  simp only [Function.comp]
  by_cases hA : r.RecordID = recordID
  · simp [reparentRow, hA]
  · by_cases hP : fullPath oldItem.ParentPath recordID <+: r.ParentPath
    · have hrow : reparentRow recordID item₁ (fullPath oldItem.ParentPath recordID)
          (fullPath (fullPath bNode.ParentPath bNode.RecordID) recordID) r
          = rewritten (fullPath oldItem.ParentPath recordID).length
              (fullPath (fullPath bNode.ParentPath bNode.RecordID) recordID) r := by
        simp [reparentRow, hA, hP]
      have hsplit := List.prefix_iff_eq_append.mp hP
      rw [hrow]
      simp only [reparentRow, rewritten, hA, if_false, List.prefix_append, if_true,
        List.drop_left, hsplit]
    · have hrow : reparentRow recordID item₁ (fullPath oldItem.ParentPath recordID)
          (fullPath (fullPath bNode.ParentPath bNode.RecordID) recordID) r = r := by
        simp [reparentRow, hA, hP]
      have hnot : ¬ fullPath (fullPath bNode.ParentPath bNode.RecordID) recordID
          <+: r.ParentPath := by
        intro hpre
        have hanc := (prefix_is_ancestor rows h1 hw _ r hr (Nat.le_refl _) oldItem hold
          (fullPath bNode.ParentPath bNode.RecordID) (by rw [hoid]; exact hpre)).1
        have hA' := h1 oldItem hold
        rw [hanc] at hA'
        exact hBA (derivedPath_inj rows hw.2.1 _ _ _
          (derivedPath_of_mem rows hw.1 hw.2.1 bNode hB) hA')
      rw [hrow]
      simp [reparentRow, hA, hnot]

/-- C19: on a store (keyed by unique `RecordID`s) that satisfies I1 and whose
`RecordID`s are non-empty, free of `/` and prefix-free, for a node `recordID`
with stored parent `A` and an existing node `B` that is neither the node nor
one of its descendants and differs from `A`: `Update` with `ParentID = B`
followed by `Update` with `ParentID = A`, both with `RecordID = recordID`,
succeeds twice and restores the `ParentPath` of every node; every node other
than `recordID` is restored as a whole, and `recordID` holds the second item
with its original `ParentPath`. -/
theorem move_and_move_back (rows : List schema.Menu) (h1 : I1 rows) (hw : WellFormed rows)
    (recordID : Str) (oldItem bNode item₁ item₂ : schema.Menu)
    (hget : memBll.MenuModel.Get recordID [] rows = (.ok (some oldItem), rows))
    (hB : bNode ∈ rows) (hBne : bNode.RecordID ≠ recordID)
    (_hBnd : ¬ Descendant rows recordID bNode)
    (hBA : bNode.RecordID ≠ oldItem.ParentID)
    (hi1 : item₁.ParentID = bNode.RecordID) (hr1 : item₁.RecordID = recordID)
    (hi2 : item₂.ParentID = oldItem.ParentID) (hr2 : item₂.RecordID = recordID) :
    ∃ st₁ rows₁ st₂ rows₂,
      memBll.Update recordID item₁ rows = (.ok st₁, rows₁) ∧
      memBll.Update recordID item₂ rows₁ = (.ok st₂, rows₂) ∧
      rows₂.map (fun r => (r.RecordID, r.ParentPath))
        = rows.map (fun r => (r.RecordID, r.ParentPath)) ∧
      (∀ r ∈ rows, r.RecordID ≠ recordID → r ∈ rows₂) ∧
      rows₂ = rows.map (fun r => if r.RecordID = recordID
        then { item₂ with ParentPath := oldItem.ParentPath, RecordID := recordID } else r) := by
  have hfind := find_of_Get rows recordID oldItem hget
  have hold : oldItem ∈ rows := List.mem_of_find?_eq_some hfind
  have hoid : oldItem.RecordID = recordID := by simpa using List.find?_some hfind
  have hne1 : recordID ≠ item₁.ParentID := by rw [hi1]; exact fun h => hBne h.symm
  have hre1 : item₁.ParentID ≠ oldItem.ParentID := by rw [hi1]; exact hBA
  have hpp1 : derivedPath rows item₁.ParentID
      = some (fullPath bNode.ParentPath bNode.RecordID) := by
    rw [hi1]; exact derivedPath_of_mem rows hw.1 hw.2.1 bNode hB
  have hup1 := memBll_Update_reparent rows hw.1 recordID item₁ oldItem _ hne1 hfind hre1
    ((getParentPath_ok_iff rows _ _).mpr hpp1)
  rw [show fullPath (fullPath bNode.ParentPath bNode.RecordID) item₁.RecordID
      = fullPath (fullPath bNode.ParentPath bNode.RecordID) recordID from by rw [hr1]] at hup1
  have hu1 := UniqueIDs_map rows
    (reparentRow recordID { item₁ with ParentPath := fullPath bNode.ParentPath bNode.RecordID }
      (fullPath oldItem.ParentPath recordID)
      (fullPath (fullPath bNode.ParentPath bNode.RecordID) recordID))
    (reparentRow_RecordID _ _ _ _) hw.1
  have hfind1 : (rows.map
      (reparentRow recordID { item₁ with ParentPath := fullPath bNode.ParentPath bNode.RecordID }
        (fullPath oldItem.ParentPath recordID)
        (fullPath (fullPath bNode.ParentPath bNode.RecordID) recordID))).find?
        (fun r => decide (r.RecordID = recordID))
      = some { item₁ with ParentPath := fullPath bNode.ParentPath bNode.RecordID,
                          RecordID := recordID } := by
    rw [find_map_of_RecordID _ _ (reparentRow_RecordID _ _ _ _), hfind]
    simp [reparentRow, hoid]
  have hne2 : recordID ≠ item₂.ParentID := by
    rw [hi2, ← hoid]
    exact fun h => not_own_parent rows h1 hw.1 hw.2.1 oldItem hold h.symm
  have hre2 : item₂.ParentID ≠
      ({ item₁ with ParentPath := fullPath bNode.ParentPath bNode.RecordID,
                    RecordID := recordID } : schema.Menu).ParentID := by
    show item₂.ParentID ≠ item₁.ParentID
    rw [hi1, hi2]; exact fun h => hBA h.symm
  have hpp2 : derivedPath (rows.map
      (reparentRow recordID { item₁ with ParentPath := fullPath bNode.ParentPath bNode.RecordID }
        (fullPath oldItem.ParentPath recordID)
        (fullPath (fullPath bNode.ParentPath bNode.RecordID) recordID))) item₂.ParentID
      = some oldItem.ParentPath := by
    rw [hi2]
    exact parent_row_kept rows h1 hw recordID _ oldItem _ hold hoid
  have hup2 := memBll_Update_reparent _ hu1 recordID item₂ _ _ hne2 hfind1 hre2
    ((getParentPath_ok_iff _ _ _).mpr hpp2)
  rw [show fullPath oldItem.ParentPath item₂.RecordID
      = fullPath oldItem.ParentPath recordID from by rw [hr2]] at hup2
  have hrows := move_back_rows rows h1 hw recordID oldItem bNode
    { item₁ with ParentPath := fullPath bNode.ParentPath bNode.RecordID }
    { item₂ with ParentPath := oldItem.ParentPath } hold hoid hB hBA
  refine ⟨_, _, _, _, hup1, hup2, ?_, ?_, ?_⟩
  · rw [hrows, List.map_map]
    apply List.map_congr_left
    intro r hr
    by_cases hA : r.RecordID = recordID
    · have hro : r = oldItem :=
        eq_of_RecordID_eq rows hw.1 r oldItem hr hold (hA.trans hoid.symm)
      subst hro
      simp [hoid]
    · simp [hA]
  · intro r hr hA
    rw [hrows, List.mem_map]
    exact ⟨r, hr, by simp [hA]⟩
  · exact hrows

/-- Witness of C19: on the store `R`, `S`, `C1` (under `R`), `G` (under `C1`),
`C1` is moved under `S` and back under `R`; the store is the original one. -/
theorem move_and_move_back_witness :
    (∃ st₁ rows₁ st₂ rows₂,
      memBll.Update "C1".toList { nodeC1 with ParentID := "S".toList } scenarioS
        = (.ok st₁, rows₁) ∧
      memBll.Update "C1".toList nodeC1 rows₁ = (.ok st₂, rows₂) ∧
      rows₂.map (fun r => (r.RecordID, r.ParentPath))
        = scenarioS.map (fun r => (r.RecordID, r.ParentPath)) ∧
      (∀ r ∈ scenarioS, r.RecordID ≠ "C1".toList → r ∈ rows₂) ∧
      rows₂ = scenarioS.map (fun r => if r.RecordID = "C1".toList
        then { nodeC1 with ParentPath := nodeC1.ParentPath, RecordID := "C1".toList }
        else r)) ∧
    memBll.Update "C1".toList { nodeC1 with ParentID := "S".toList } scenarioS
      = (.ok { nodeC1 with ParentID := "S".toList, ParentPath := "S".toList },
          [nodeR, nodeS, { nodeC1 with ParentID := "S".toList, ParentPath := "S".toList },
            { nodeG with ParentPath := "S/C1".toList }]) ∧
    memBll.Update "C1".toList nodeC1
        [nodeR, nodeS, { nodeC1 with ParentID := "S".toList, ParentPath := "S".toList },
          { nodeG with ParentPath := "S/C1".toList }]
      = (.ok nodeC1, scenarioS) :=
  ⟨move_and_move_back scenarioS (by decide) (by decide) "C1".toList nodeC1 nodeS
      { nodeC1 with ParentID := "S".toList } nodeC1 (by decide) (by decide) (by decide)
      (not_descendant_of_root scenarioS (by decide) "C1".toList (by decide) nodeS rfl)
      (by decide) rfl rfl rfl rfl,
   by decide, by decide⟩
